import Mathlib

/-!
Verification development for the fetch layer of the similarweb_extract
repository (src/similarweb_extract/DataFetcher.py).

The shallow embedding below models, from the source:
  * the Python values handled by the layer (decoded JSON payloads and their
    truthiness),
  * `RequestsCache` (SQLite-backed response cache keyed by a normalized URL):
    `_normalize_url`, `retrieve`, `retrieve_all`, `create_or_update`,
    `create_or_update_all`, `flush`,
  * the URL machinery `_normalize_url` relies on, translated from CPython
    `urllib.parse`: `urlsplit`, `urlunsplit`, `parse_qsl`, `urlencode`,
    `quote_plus`, `unquote_plus`, together with Python `list.sort` (a stable
    ascending sort by the given key),
  * `HttpFetcher._fetch_retry` under the `backoff.on_exception(backoff.fibo,
    (RetriableError, ClientConnectionError), max_tries=3)` decorator,
    `HttpFetcher.fetch`, `HttpFetcher.fetch_all`,
  * `CachedDataFetcher.fetch` and `CachedDataFetcher.fetch_all`,
  * the `Singleton` metaclass.

Network responses are supplied as explicit per-attempt event streams; the
SQLite table is an explicit list of rows (url PRIMARY KEY, response,
last_accessed); raised exceptions are explicit constructors or `Except`
errors; `logger.error` calls relevant to the claims are modelled as emitted
log events.  Timing primitives (semaphores, the delayed slot release and the
event loop) have no influence on returned values and are not modelled;
the nominal backoff wait values of `backoff.fibo` are recorded as delays.
-/

set_option maxRecDepth 20000

namespace SimilarwebExtract

/-- Decoded JSON values as Python objects, except Python `None` (JSON null),
which is represented as `Option.none` at every use site, mirroring how the
source tests `result is not None`. -/
inductive Py where
  | bool (b : Bool)
  | num (n : Int)
  | str (s : String)
  | list (xs : List Py)
  | dict (kvs : List (String × Py))
  deriving Repr

/-- Python truthiness of a decoded JSON value (`bool(v)`). -/
def Py.truthy : Py → Bool
  | .bool b => b
  | .num n => decide (n ≠ 0)
  | .str s => decide (s ≠ "")
  | .list [] => false
  | .list (_ :: _) => true
  | .dict [] => false
  | .dict (_ :: _) => true

/-- Python truthiness of a possibly-`None` value, as used by
`if not result:` in `CachedDataFetcher.fetch`. -/
def pyTruthy : Option Py → Bool
  | none => false
  | some v => v.truthy

/-! ## CPython `urllib.parse` machinery used by `RequestsCache._normalize_url`

All functions work on `List Char` (Python `str` values); `String` wrappers
are provided where the cache API needs them. -/

/-- Membership in CPython `scheme_chars` (ASCII letters, digits, `+-.`). -/
def isSchemeChar (c : Char) : Bool :=
  c.isAlpha || c.isDigit || c == '+' || c == '-' || c == '.'

/-- A WHATWG C0 control character or space, stripped from the leading end
of the URL by `urlsplit`. -/
def isC0OrSpace (c : Char) : Bool :=
  decide (c ≤ ' ')

/-- `url.lstrip(_WHATWG_C0_CONTROL_OR_SPACE)` from CPython `urlsplit`
(only the leading side is stripped, preserving trailing spaces). -/
def pyLstripC0 (l : List Char) : List Char :=
  l.dropWhile isC0OrSpace

/-- Removal of `_UNSAFE_URL_BYTES_TO_REMOVE` (tab, CR, LF) from CPython
`urlsplit`. -/
def removeUnsafeBytes (l : List Char) : List Char :=
  l.filter (fun c => !(c == '\t' || c == '\r' || c == '\n'))

/-- Python `s.split(sep)` for a one-character separator: splits at every
occurrence, keeping empty pieces. -/
def pySplitChar (sep : Char) : List Char → List (List Char)
  | [] => [[]]
  | c :: cs =>
    match pySplitChar sep cs with
    | [] => []
    | r :: rs => if c == sep then [] :: r :: rs else (c :: r) :: rs

/-- Python `s.split(sep, 1)` for a one-character separator. -/
def pySplitOnce (sep : Char) (l : List Char) : List (List Char) :=
  match l.findIdx? (fun c => c == sep) with
  | some i => [l.take i, l.drop (i + 1)]
  | none => [l]

/-- CPython `urllib.parse._splitnetloc(url, 2)`: the network location runs
from after the `//` up to the first of `/`, `?`, `#`. -/
def splitnetloc (l : List Char) : List Char × List Char :=
  let rest := l.drop 2
  match rest.findIdx? (fun c => c == '/' || c == '?' || c == '#') with
  | some d => (rest.take d, rest.drop d)
  | none => (rest, [])

/-- Result of `urlsplit` (scheme, netloc, path, query, fragment). -/
structure SplitResultC where
  scheme : List Char
  netloc : List Char
  path : List Char
  query : List Char
  fragment : List Char
  deriving DecidableEq, Repr

/-- CPython `urllib.parse.urlsplit` with default arguments
(`scheme=''`, `allow_fragments=True`).  The raise-only validation of
bracketed IPv6 hosts and of NFKC-spoofed netlocs is not modelled. -/
def pyUrlsplit (url0 : List Char) : SplitResultC :=
  let url1 := removeUnsafeBytes (pyLstripC0 url0)
  let sr :=
    match url1.findIdx? (fun c => c == ':') with
    | some i =>
      if 0 < i ∧ (url1.headD ' ').isAlpha ∧ (url1.take i).all isSchemeChar then
        ((url1.take i).map Char.toLower, url1.drop (i + 1))
      else
        ([], url1)
    | none => ([], url1)
  let scheme := sr.1
  let nr :=
    if sr.2.take 2 = ['/', '/'] then splitnetloc sr.2 else ([], sr.2)
  let netloc := nr.1
  let fr :=
    if nr.2.any (fun c => c == '#') then
      match pySplitOnce '#' nr.2 with
      | [u, f] => (u, f)
      | _ => (nr.2, [])
    else (nr.2, [])
  let qr :=
    if fr.1.any (fun c => c == '?') then
      match pySplitOnce '?' fr.1 with
      | [u, q] => (u, q)
      | _ => (fr.1, [])
    else (fr.1, [])
  ⟨scheme, netloc, qr.1, qr.2, fr.2⟩

/-- CPython `urllib.parse.urlunsplit`. -/
def pyUrlunsplit (r : SplitResultC) : List Char :=
  let url := r.path
  let url :=
    if r.netloc ≠ [] ∨ (url ≠ [] ∧ url.take 2 = ['/', '/']) then
      '/' :: '/' :: r.netloc ++ (if url ≠ [] ∧ url.take 1 ≠ ['/'] then '/' :: url else url)
    else url
  let url := if r.scheme ≠ [] then r.scheme ++ ':' :: url else url
  let url := if r.query ≠ [] then url ++ '?' :: r.query else url
  if r.fragment ≠ [] then url ++ '#' :: r.fragment else url

/-- Value of a hexadecimal digit, accepting both cases, as in
`bytes.fromhex` used by CPython `unquote_to_bytes`. -/
def hexVal? (c : Char) : Option Nat :=
  let n := c.toNat
  if 48 ≤ n ∧ n ≤ 57 then some (n - 48)
  else if 65 ≤ n ∧ n ≤ 70 then some (n - 55)
  else if 97 ≤ n ∧ n ≤ 102 then some (n - 87)
  else none

/-- Tokenize a percent-encoded string: `%XX` with two hexadecimal digits
becomes a byte, everything else stays a literal character (a `%` not
followed by two hexadecimal digits is literal, as in `unquote_to_bytes`). -/
def pctTokens : List Char → List (Sum Char Nat)
  | [] => []
  | '%' :: a :: b :: rest =>
    match hexVal? a, hexVal? b with
    | some ha, some hb => Sum.inr (16 * ha + hb) :: pctTokens rest
    | _, _ => Sum.inl '%' :: pctTokens (a :: b :: rest)
  | c :: rest => Sum.inl c :: pctTokens rest

/-- The U+FFFD replacement character used by `errors='replace'`. -/
def replChar : Char := Char.ofNat 0xFFFD

/-- A UTF-8 continuation byte. -/
def isContByte (b : Nat) : Bool := 0x80 ≤ b && b < 0xC0

/-- One step of UTF-8 decoding with replacement: from a lead byte and the
remaining bytes, produce one character (the decoded scalar, or U+FFFD for an
ill-formed sequence) and the bytes left to decode. -/
def utf8Step (b : Nat) (bs : List Nat) : Char × List Nat :=
  if b < 0x80 then (Char.ofNat b, bs)
  else if 0xC2 ≤ b && b ≤ 0xDF then
    match bs with
    | b2 :: bs2 =>
      if isContByte b2 then (Char.ofNat ((b - 0xC0) * 64 + (b2 - 0x80)), bs2)
      else (replChar, b2 :: bs2)
    | [] => (replChar, [])
  else if 0xE0 ≤ b && b ≤ 0xEF then
    match bs with
    | b2 :: b3 :: bs3 =>
      if isContByte b2 && isContByte b3 then
        let cp := (b - 0xE0) * 4096 + (b2 - 0x80) * 64 + (b3 - 0x80)
        if 0x800 ≤ cp && !(0xD800 ≤ cp && cp ≤ 0xDFFF) then (Char.ofNat cp, bs3)
        else (replChar, b2 :: b3 :: bs3)
      else (replChar, b2 :: b3 :: bs3)
    | _ => (replChar, [])
  else if 0xF0 ≤ b && b ≤ 0xF4 then
    match bs with
    | b2 :: b3 :: b4 :: bs4 =>
      if isContByte b2 && isContByte b3 && isContByte b4 then
        let cp := (b - 0xF0) * 262144 + (b2 - 0x80) * 4096 + (b3 - 0x80) * 64 + (b4 - 0x80)
        if 0x10000 ≤ cp && cp ≤ 0x10FFFF then (Char.ofNat cp, bs4)
        else (replChar, b2 :: b3 :: b4 :: bs4)
      else (replChar, b2 :: b3 :: b4 :: bs4)
    | _ => (replChar, [])
  else (replChar, bs)

theorem utf8Step_snd_length_le (b : Nat) (bs : List Nat) :
    (utf8Step b bs).2.length ≤ bs.length := by
  unfold utf8Step
  dsimp only
  repeat' split
  all_goals simp_all
  all_goals omega

/-- Driver for UTF-8 decoding: the fuel is an upper bound on the number of
bytes left, so with fuel `l.length` it is never exhausted (each step
consumes at least the lead byte). -/
def utf8DecodeGo : Nat → List Nat → List Char
  | _, [] => []
  | 0, _ :: _ => []
  | fuel + 1, b :: bs => (utf8Step b bs).1 :: utf8DecodeGo fuel (utf8Step b bs).2

/-- UTF-8 decoding with replacement of ill-formed sequences, as performed by
`bytes.decode('utf-8', errors='replace')` on the byte runs produced by
`unquote_to_bytes`.  The exact granularity of replacement characters on
ill-formed input is approximated; well-formed sequences decode exactly. -/
def utf8DecodeRepl (l : List Nat) : List Char :=
  utf8DecodeGo l.length l

/-- Decode the token stream: maximal runs of bytes are decoded as UTF-8 with
replacement, literal characters pass through (CPython `unquote`). -/
def decodeTokensGo : List (Sum Char Nat) → List Nat → List Char
  | [], acc => utf8DecodeRepl acc.reverse
  | Sum.inl c :: rest, acc => utf8DecodeRepl acc.reverse ++ c :: decodeTokensGo rest []
  | Sum.inr b :: rest, acc => decodeTokensGo rest (b :: acc)

/-- CPython `urllib.parse.unquote` with defaults
(`encoding='utf-8'`, `errors='replace'`). -/
def pyUnquote (l : List Char) : List Char :=
  decodeTokensGo (pctTokens l) []

/-- `str.replace('+', ' ')` followed by `unquote`, the exact treatment
`parse_qsl` applies to each name and value. -/
def unquotePlus (l : List Char) : List Char :=
  pyUnquote (l.map (fun c => if c == '+' then ' ' else c))

/-- CPython `urllib.parse.parse_qsl` with default arguments
(`keep_blank_values=False`, `strict_parsing=False`, `separator='&'`):
empty pieces are skipped, a piece without `=` is skipped, a piece with an
empty value is skipped, and names and values are plus-and-percent
decoded. -/
def parseQsl (qs : List Char) : List (List Char × List Char) :=
  (pySplitChar '&' qs).filterMap fun nv =>
    if nv = [] then none
    else
      match pySplitOnce '=' nv with
      | [name, value] =>
        if value = [] then none
        else some (unquotePlus name, unquotePlus value)
      | _ => none

/-- ASCII letters, digits and `_.-~`, never quoted by CPython `quote`. -/
def isAlwaysSafe (c : Char) : Bool :=
  c.isAlpha || c.isDigit || c == '_' || c == '.' || c == '-' || c == '~'

/-- UTF-8 encoding of one character. -/
def charUtf8Bytes (c : Char) : List Nat :=
  let n := c.toNat
  if n < 0x80 then [n]
  else if n < 0x800 then [0xC0 + n / 64, 0x80 + n % 64]
  else if n < 0x10000 then [0xE0 + n / 4096, 0x80 + (n / 64) % 64, 0x80 + n % 64]
  else [0xF0 + n / 262144, 0x80 + (n / 4096) % 64, 0x80 + (n / 64) % 64, 0x80 + n % 64]

/-- Upper-case hexadecimal digit, as produced by CPython `quote`. -/
def hexDigitUpper (n : Nat) : Char :=
  if n < 10 then Char.ofNat ('0'.toNat + n) else Char.ofNat ('A'.toNat + n - 10)

/-- `%XX` encoding of one byte. -/
def pctEncodeByte (b : Nat) : List Char :=
  ['%', hexDigitUpper (b / 16), hexDigitUpper (b % 16)]

/-- CPython `quote_plus` with `safe=''`, character by character: a space
becomes `+`, always-safe characters stay, anything else is percent-encoded
byte by byte (equivalent per-character form of the source's
quote-then-replace-spaces). -/
def quotePlusChar (c : Char) : List Char :=
  if c == ' ' then ['+']
  else if isAlwaysSafe c then [c]
  else ((charUtf8Bytes c).map pctEncodeByte).flatten

/-- CPython `quote_plus` with `safe=''`. -/
def quotePlus (l : List Char) : List Char :=
  (l.map quotePlusChar).flatten

/-- Python `sep.join(parts)` for a one-character separator. -/
def joinChar (sep : Char) : List (List Char) → List Char
  | [] => []
  | [p] => p
  | p :: ps => p ++ sep :: joinChar sep ps

/-- CPython `urllib.parse.urlencode` on a list of pairs with default
arguments (`doseq=False`, `quote_via=quote_plus`). -/
def urlencode (params : List (List Char × List Char)) : List Char :=
  joinChar '&' (params.map fun p => quotePlus p.1 ++ '=' :: quotePlus p.2)

/-- Strict lexicographic comparison of Python strings by code point, the
comparison `list.sort(key=...)` performs on the sort keys. -/
def strLt : List Char → List Char → Bool
  | [], [] => false
  | [], _ :: _ => true
  | _ :: _, [] => false
  | x :: xs, y :: ys => if x = y then strLt xs ys else decide (x < y)

/-- One insertion step of a stable ascending insertion sort by parameter
name: the inserted element goes before the first element whose name is not
strictly smaller, so elements with equal names keep their original order. -/
def insertByName (p : List Char × List Char) :
    List (List Char × List Char) → List (List Char × List Char)
  | [] => [p]
  | q :: qs => if strLt q.1 p.1 then q :: insertByName p qs else p :: q :: qs

/-- Python `query_params.sort(key=lambda param: param[0])`: a stable
ascending sort by parameter name. -/
def sortByName : List (List Char × List Char) → List (List Char × List Char)
  | [] => []
  | p :: ps => insertByName p (sortByName ps)

/-- The characters of the credential parameter name `api_key`. -/
def apiKeyChars : List Char := ['a', 'p', 'i', '_', 'k', 'e', 'y']

/-- `RequestsCache._normalize_url` on character lists: split the URL, parse
the query string, drop every `api_key` parameter, sort the remaining
parameters by name (stable, ascending), re-encode the query and reassemble
the URL with `urlunsplit` on the split result with only the query replaced
(so scheme, netloc, path and fragment are all kept). -/
def normalizeUrlCore (url : List Char) : List Char :=
  let sp := pyUrlsplit url
  let queryParams := (parseQsl sp.query).filter (fun p => p.1 ≠ apiKeyChars)
  let sorted := sortByName queryParams
  pyUrlunsplit { sp with query := urlencode sorted }

/-! ## RequestsCache -/

/-- A stored `response` column value, abstracted by what `json.loads` does
to it: `ok v` is text that decodes to the Python value `v` (with `ok none`
for the text `null`), `bad` is text on which `json.loads` raises
`ValueError`.  `json.dumps` output always round-trips, so rows written by
the code itself are `ok (some v)`. -/
inductive Stored where
  | ok (v : Option Py)
  | bad
  deriving Repr

/-- A row of the `responses` table: url (PRIMARY KEY, holding the
normalized URL), response, last_accessed. -/
abbrev CacheRow := String × Stored × Int

/-- The `responses` table.  The PRIMARY KEY constraint is the hypothesis
`(t.map Prod.fst).Nodup` where a theorem needs it. -/
abbrev CacheTable := List CacheRow

/-- `logger.error` events modelled for the claims about decode failures. -/
inductive LogEvent where
  | retrieveDecodeError (normalizedUrl : String)
  | retrieveAllDecodeError (normalizedUrl : String)
  deriving DecidableEq, Repr

/-- `RequestsCache` state: `_conn` (`none` when no database is configured)
and `_actions_pending`. -/
structure RequestsCache where
  conn : Option CacheTable
  actions_pending : Nat
  deriving Repr

namespace RequestsCache

/-- `RequestsCache._normalize_url` on strings. -/
def normalize_url (url : String) : String :=
  ⟨normalizeUrlCore url.data⟩

/-- `SELECT response, last_accessed FROM responses WHERE url=?`: first row
whose primary key matches (the key is unique under the PRIMARY KEY
constraint). -/
def tableLookup : CacheTable → String → Option (Stored × Int)
  | [], _ => none
  | r :: rs, k => if r.1 = k then some r.2 else tableLookup rs k

/-- `INSERT OR REPLACE`: any conflicting row is deleted and the new row
inserted. -/
def tableUpsert (t : CacheTable) (k : String) (s : Stored) (ts : Int) : CacheTable :=
  t.filter (fun r => decide (r.1 ≠ k)) ++ [(k, s, ts)]

/-- `RequestsCache._update_count`: the pending-action counter, reset when
the threshold of 100 triggers a commit (a pure durability action in this
in-memory model). -/
def updateCount (pending count : Nat) : Nat :=
  if 100 ≤ pending + count then 0 else pending + count

/-- `RequestsCache.retrieve`: `None` when no database is configured or the
key is absent; a stored value that fails to decode is logged
(`retrieveDecodeError`) and leaves the result at `None`. -/
def retrieve (c : RequestsCache) (url : String) : Option Py × List LogEvent :=
  match c.conn with
  | none => (none, [])
  | some t =>
    let nu := normalize_url url
    match tableLookup t nu with
    | none => (none, [])
    | some (.ok v, _) => (v, [])
    | some (.bad, _) => (none, [.retrieveDecodeError nu])

/-- Driver for `chunks`: the fuel is an upper bound on the list length, so
with fuel `l.length` it is never exhausted when the step is positive. -/
def chunksGo {α : Type} (n : Nat) : Nat → List α → List (List α)
  | _, [] => []
  | 0, _ :: _ => []
  | fuel + 1, x :: xs => (x :: xs).take n :: chunksGo n fuel ((x :: xs).drop n)

/-- `chunks(lst, n)` from the source: successive `n`-sized chunks.  The
source only calls it with `n = SQL_MAX_VARIABLES`; a zero step would raise
in Python and is mapped to `[]`. -/
def chunks {α : Type} (l : List α) (n : Nat) : List (List α) :=
  if n = 0 then [] else chunksGo n l.length l

/-- `SQL_MAX_VARIABLES` from the source. -/
def SQL_MAX_VARIABLES : Nat := 900

/-- `SELECT url, response FROM responses WHERE url IN (...)`: the rows of
the table whose key is among the requested ones. -/
def sqlSelectIn (t : CacheTable) (keys : List String) : List (String × Stored) :=
  (t.filter (fun r => decide (r.1 ∈ keys))).map (fun r => (r.1, r.2.1))

/-- Python `dict` insertion: an existing key keeps its position and gets
the new value, a new key is appended. -/
def dictInsert {α β : Type} [DecidableEq α] : List (α × β) → α → β → List (α × β)
  | [], k, v => [(k, v)]
  | p :: ps, k, v => if p.1 = k then (k, v) :: ps else p :: dictInsert ps k v

/-- Python `dict` lookup on the association lists built by `dictInsert`. -/
def dictFind {α β : Type} [DecidableEq α] : List (α × β) → α → Option β
  | [], _ => none
  | p :: ps, k => if p.1 = k then some p.2 else dictFind ps k

/-- The `cache_results` dictionary of `retrieve_all`: for each chunk of
urls, query the normalized keys and merge the returned rows with
`dict.update`. -/
def buildCacheResults (t : CacheTable) (urls : List String) : List (String × Stored) :=
  (chunks urls SQL_MAX_VARIABLES).foldl
    (fun acc chunk =>
      (sqlSelectIn t (chunk.map normalize_url)).foldl
        (fun a row => dictInsert a row.1 row.2) acc)
    []

/-- The final loop of `retrieve_all` over the input urls: a url whose
normalized key is absent from `cache_results` is appended to `missed`;
otherwise it lands in `hits` with the decoded value, or with `None` plus a
logged `retrieveAllDecodeError` when decoding raises. -/
def retrieveAllGo (cacheResults : List (String × Stored)) :
    List String → List (String × Option Py) → List String → List LogEvent →
    List (String × Option Py) × List String × List LogEvent
  | [], hits, missed, logs => (hits, missed, logs)
  | url :: rest, hits, missed, logs =>
    let nu := normalize_url url
    match dictFind cacheResults nu with
    | none => retrieveAllGo cacheResults rest hits (missed ++ [url]) logs
    | some (.ok v) => retrieveAllGo cacheResults rest (dictInsert hits url v) missed logs
    | some .bad =>
      retrieveAllGo cacheResults rest (dictInsert hits url none) missed
        (logs ++ [.retrieveAllDecodeError nu])

/-- `RequestsCache.retrieve_all`: batched lookup over 900-key chunks.  When
no database is configured, `cache_results` stays empty and every url is a
miss. -/
def retrieve_all (c : RequestsCache) (urls : List String) :
    List (String × Option Py) × List String × List LogEvent :=
  match c.conn with
  | none => retrieveAllGo [] urls [] [] []
  | some t => retrieveAllGo (buildCacheResults t urls) urls [] [] []

/-- `RequestsCache.create_or_update`: upsert the normalized key with the
serialized response and `datetime('now')`; a no-op when no database is
configured or the response is `None`. -/
def create_or_update (c : RequestsCache) (url : String) (response : Option Py)
    (now : Int) : RequestsCache :=
  match c.conn, response with
  | none, _ => c
  | some _, none => c
  | some t, some v =>
    { conn := some (tableUpsert t (normalize_url url) (.ok (some v)) now),
      actions_pending := updateCount c.actions_pending 1 }

/-- `RequestsCache.create_or_update_all`: the `values` list keeps exactly
the entries with a non-`None` response, then one `executemany` of
`INSERT OR REPLACE` runs over it in order. -/
def create_or_update_all (c : RequestsCache) (data : List (String × Option Py))
    (now : Int) : RequestsCache :=
  match c.conn with
  | none => c
  | some t =>
    let values := data.filterMap fun p =>
      match p.2 with
      | none => none
      | some v => some (normalize_url p.1, Stored.ok (some v))
    { conn := some (values.foldl (fun tt kv => tableUpsert tt kv.1 kv.2 now) t),
      actions_pending := updateCount c.actions_pending values.length }

/-- `RequestsCache.flush(max_age)`: `ValueError` on a negative age,
otherwise delete every row with `last_accessed <= datetime('now',
'-max_age day')`, i.e. with timestamp at most `now - max_age`. -/
def flush (c : RequestsCache) (max_age : Int) (now : Int) :
    Except String RequestsCache :=
  if max_age < 0 then .error "ValueError: Max age must be greater than 0!"
  else
    match c.conn with
    | none => .ok c
    | some t =>
      .ok { conn := some (t.filter (fun r => decide (¬ r.2.2 ≤ now - max_age))),
            actions_pending := updateCount c.actions_pending 1 }

end RequestsCache

/-! ## HttpFetcher -/

/-- `MAX_HTTP_RETRIES` from the source. -/
def MAX_HTTP_RETRIES : Nat := 3

/-- One network event for one HTTP GET attempt: either a response with a
status code, a content type (JSON or not) and, when JSON, the decoded body
(`none` for a JSON `null`), or a connection-level failure
(`aiohttp.ClientConnectionError`). -/
inductive NetEvent where
  | response (status : Nat) (contentTypeJson : Bool) (jsonBody : Option Py)
  | connError

/-- Result of one execution of the body of `HttpFetcher._fetch_retry`:
a normal return with a payload, a raised `RetriableError` or
`ClientConnectionError` (retried by the `backoff` decorator), or a raised
non-retriable `aiohttp.ClientResponseError`. -/
inductive AttemptResult where
  | ok (v : Option Py)
  | retriable
  | fatal
  deriving Repr

/-- The outcome classification inside `HttpFetcher._fetch_retry`:
status 429 or any 5xx raises `RetriableError`; a structured 400 raises
`ClientResponseError`; any other status of at least 400 except 404 raises
`ClientResponseError`; otherwise a JSON body is returned (404 included, on
purpose) and a non-JSON body is logged and returned as `None`. -/
def classifyAttempt : NetEvent → AttemptResult
  | .connError => .retriable
  | .response status ctJson body =>
    if status = 429 ∨ (500 ≤ status ∧ status < 600) then .retriable
    else if status = 400 ∧ ctJson then .fatal
    else if 400 ≤ status ∧ status ≠ 404 then .fatal
    else if ctJson then .ok body
    else .ok none

/-- The `backoff.fibo` wait generator: 1, 1, 2, 3, 5, ... -/
def fiboWait : Nat → Nat
  | 0 => 1
  | 1 => 1
  | n + 2 => fiboWait n + fiboWait (n + 1)

/-- Trace of `_fetch_retry` under the `backoff` decorator: the final
outcome (`retriable`/`fatal` mean the exception propagated to `fetch`),
the number of attempts made, and the nominal `backoff.fibo` wait values
between consecutive attempts. -/
structure RetryTrace where
  outcome : AttemptResult
  attempts : Nat
  delays : List Nat
  deriving Repr

/-- The retry loop of `backoff.on_exception(backoff.fibo, (RetriableError,
ClientConnectionError), max_tries=MAX_HTTP_RETRIES)` around
`_fetch_retry`: `remaining` is the number of attempts still allowed
(`max_tries - tries`), `i` the index of the current attempt.  A retriable
outcome with no attempt left propagates the exception; with attempts left
it is retried after the next nominal `backoff.fibo` wait. -/
def fetchRetryGo (events : Nat → NetEvent) : Nat → Nat → List Nat → RetryTrace
  | 0, i, delays => ⟨.retriable, i, delays⟩
  | remaining + 1, i, delays =>
    match classifyAttempt (events i) with
    | .retriable =>
      if remaining = 0 then ⟨.retriable, i + 1, delays⟩
      else fetchRetryGo events remaining (i + 1) (delays ++ [fiboWait i])
    | r => ⟨r, i + 1, delays⟩

/-- `HttpFetcher._fetch_retry` with its `backoff` decorator, fed by the
per-attempt event stream of one URL. -/
def fetchRetry (events : Nat → NetEvent) : RetryTrace :=
  fetchRetryGo events MAX_HTTP_RETRIES 0 []

/-- `HttpFetcher.fetch`: runs `_fetch_retry` (the `no_concurrency` flag
only selects the global exclusive lock and cannot change the returned
value) and absorbs `aiohttp.ClientResponseError` (which `RetriableError`
subclasses) and `aiohttp.ClientConnectionError` into a logged `None`. -/
def HttpFetcher.fetch (url : String) (events : Nat → NetEvent)
    (no_concurrency : Bool := false) : Option Py :=
  match (fetchRetry events).outcome with
  | .ok v => v
  | .retriable => none
  | .fatal => none

/-- `HttpFetcher.fetch_all`: gather `fetch` over the urls and key the
results dictionary by url. -/
def HttpFetcher.fetch_all (urls : List String) (events : String → Nat → NetEvent)
    (no_concurrency : Bool := false) : List (String × Option Py) :=
  urls.foldl
    (fun acc url => RequestsCache.dictInsert acc url (HttpFetcher.fetch url (events url)))
    []

/-! ## CachedDataFetcher -/

/-- Result of `CachedDataFetcher.fetch`: the returned value, the cache
state afterwards, and whether the transport (`HttpFetcher.fetch`) was
invoked. -/
structure FetchOutcome where
  result : Option Py
  cache : RequestsCache
  transportCalled : Bool
  deriving Repr

/-- `CachedDataFetcher.fetch`: `result = cache.retrieve(url) if not
skip_cache else None`; `if not result:` (Python truthiness) delegate to
the transport; finally `if not skip_cache and result is not None:` store
the result with the current timestamp. -/
def CachedDataFetcher.fetch (cache : RequestsCache) (url : String)
    (events : Nat → NetEvent) (skip_cache : Bool) (now : Int)
    (no_concurrency : Bool := false) : FetchOutcome :=
  let r0 := if ¬ skip_cache then (cache.retrieve url).1 else none
  let rc := if ¬ pyTruthy r0 then (HttpFetcher.fetch url events, true) else (r0, false)
  let cache' :=
    if ¬ skip_cache ∧ rc.1.isSome then cache.create_or_update url rc.1 now else cache
  ⟨rc.1, cache', rc.2⟩

/-- `CachedDataFetcher.fetch_all`.  With `skip_cache=True` the source binds
`results, misses = ([], urls)` — a Python list — and the later
`results.update(api_results)` raises `AttributeError`, modelled as the
error branch.  Otherwise: batched cache lookup, transport fetch of the
misses, `dict.update` merge, and a batched write-back of every non-`None`
result. -/
def CachedDataFetcher.fetch_all (cache : RequestsCache) (urls : List String)
    (events : String → Nat → NetEvent) (skip_cache : Bool) (now : Int)
    (no_concurrency : Bool := false) :
    Except String (List (String × Option Py) × RequestsCache) :=
  if skip_cache then
    .error "AttributeError: list object has no attribute update"
  else
    let r := cache.retrieve_all urls
    let apiResults := HttpFetcher.fetch_all r.2.1 events
    let results := apiResults.foldl (fun acc p => RequestsCache.dictInsert acc p.1 p.2) r.1
    .ok (results, cache.create_or_update_all results now)

/-! ## Singleton metaclass -/

/-- `Singleton.__call__` for one class: given the registry entry for the
class (`_instances.get(cls)`) and the constructor call with the current
arguments, return the instance to hand out and the updated registry
entry.  A later call never runs the constructor when an instance exists. -/
def Singleton.call {α : Type} (registry : Option α) (ctor : Unit → α) : α × Option α :=
  match registry with
  | some inst => (inst, some inst)
  | none =>
    let inst := ctor ()
    (inst, some inst)

/-- The constructor-visible state of `HttpFetcher.__init__`: the requested
rate ceiling, the throttle semaphore initial value and the exclusive lock
semaphore initial value. -/
structure HttpFetcherState where
  max_nb_requests : Nat
  sem_throttle : Nat
  sem_concurrency : Nat
  deriving DecidableEq, Repr

/-- `HttpFetcher.__init__(max_nb_requests=9)`. -/
def HttpFetcher.init (max_nb_requests : Nat := 9) : HttpFetcherState :=
  { max_nb_requests := max_nb_requests,
    sem_throttle := max_nb_requests,
    sem_concurrency := 1 }

/-! ## Lemmas about the retry loop -/

theorem fetchRetry_eq (events : Nat → NetEvent) :
    fetchRetry events =
      match classifyAttempt (events 0) with
      | .retriable =>
        match classifyAttempt (events 1) with
        | .retriable =>
          match classifyAttempt (events 2) with
          | .retriable => ⟨.retriable, 3, [1, 1]⟩
          | .ok v => ⟨.ok v, 3, [1, 1]⟩
          | .fatal => ⟨.fatal, 3, [1, 1]⟩
        | .ok v => ⟨.ok v, 2, [1]⟩
        | .fatal => ⟨.fatal, 2, [1]⟩
      | .ok v => ⟨.ok v, 1, []⟩
      | .fatal => ⟨.fatal, 1, []⟩ := by
  show fetchRetryGo events 3 0 [] = _
  cases h0 : classifyAttempt (events 0) <;>
    simp only [fetchRetryGo, h0, fiboWait, List.nil_append, Nat.succ_ne_zero, if_false,
      reduceIte] <;>
  cases h1 : classifyAttempt (events 1) <;>
    simp only [fetchRetryGo, h1, fiboWait, List.cons_append, List.nil_append,
      Nat.succ_ne_zero, if_false, reduceIte] <;>
  cases h2 : classifyAttempt (events 2) <;>
    simp only [fetchRetryGo, h2, fiboWait, List.cons_append, List.nil_append, reduceIte]

theorem HttpFetcher.fetch_eq_of_outcome_ok (url : String) (events : Nat → NetEvent)
    (v : Option Py) (h : (fetchRetry events).outcome = .ok v) :
    HttpFetcher.fetch url events = v := by
  unfold HttpFetcher.fetch
  rw [h]

/-! ## Claim C3: retry with Fibonacci backoff, 3 attempts, absence on
exhaustion, no exception to the caller -/

/-- C3: for every URL (the transport result only depends on the per-attempt
event stream), (a) if every attempt within the budget of
`MAX_HTTP_RETRIES = 3` hits a retriable outcome (status 429, any 5xx, or a
connection-level failure), `HttpFetcher.fetch` makes exactly 3 attempts
with the nominal Fibonacci waits 1, 1 between them and returns `None` (the
exhausted `RetriableError`/`ClientConnectionError` is caught inside
`fetch`, never propagated to its caller); (b) if the attempts before
attempt `k < 3` are all retriable and attempt `k` returns a payload, that
payload is returned after exactly `k + 1` attempts with the Fibonacci
prefix of `k` waits. -/
theorem claim_C3 (url : String) (events : Nat → NetEvent) :
    ((∀ i, i < MAX_HTTP_RETRIES → classifyAttempt (events i) = .retriable) →
      HttpFetcher.fetch url events = none ∧
      (fetchRetry events).outcome = .retriable ∧
      (fetchRetry events).attempts = 3 ∧
      (fetchRetry events).delays = [fiboWait 0, fiboWait 1]) ∧
    (∀ k v, k < MAX_HTTP_RETRIES →
      (∀ i, i < k → classifyAttempt (events i) = .retriable) →
      classifyAttempt (events k) = .ok v →
      HttpFetcher.fetch url events = v ∧
      (fetchRetry events).attempts = k + 1 ∧
      (fetchRetry events).delays = (List.range k).map fiboWait) := by
  constructor
  · intro h
    have h0 := h 0 (by decide)
    have h1 := h 1 (by decide)
    have h2 := h 2 (by decide)
    have e : fetchRetry events = ⟨.retriable, 3, [1, 1]⟩ := by
      rw [fetchRetry_eq, h0, h1, h2]
    refine ⟨?_, by rw [e], by rw [e], by rw [e]; rfl⟩
    unfold HttpFetcher.fetch
    rw [e]
  · intro k v hk hpre hok
    have hk3 : k < 3 := hk
    interval_cases k
    · have e : fetchRetry events = ⟨.ok v, 1, []⟩ := by
        rw [fetchRetry_eq, hok]
      exact ⟨HttpFetcher.fetch_eq_of_outcome_ok url events v (by rw [e]),
        by rw [e], by rw [e]; rfl⟩
    · have h0 := hpre 0 (by decide)
      have e : fetchRetry events = ⟨.ok v, 2, [1]⟩ := by
        rw [fetchRetry_eq, h0, hok]
      exact ⟨HttpFetcher.fetch_eq_of_outcome_ok url events v (by rw [e]),
        by rw [e], by rw [e]; rfl⟩
    · have h0 := hpre 0 (by decide)
      have h1 := hpre 1 (by decide)
      have e : fetchRetry events = ⟨.ok v, 3, [1, 1]⟩ := by
        rw [fetchRetry_eq, h0, h1, hok]
      exact ⟨HttpFetcher.fetch_eq_of_outcome_ok url events v (by rw [e]),
        by rw [e], by rw [e]; rfl⟩

/-- Witness for C3 at concrete inputs: a stream answering 503 on every
attempt satisfies the retriable hypothesis and yields absence after 3
attempts with waits 1, 1; a stream answering 503 twice and then 200 with a
payload satisfies the hypotheses of part (b) at `k = 2` and yields the
payload. -/
theorem claim_C3_witness :
    ((∀ i, i < MAX_HTTP_RETRIES →
        classifyAttempt ((fun _ => NetEvent.response 503 false none) i) = .retriable) ∧
      HttpFetcher.fetch "https://api.example.com/v1"
        (fun _ => NetEvent.response 503 false none) = none ∧
      (fetchRetry (fun _ => NetEvent.response 503 false none)).attempts = 3 ∧
      (fetchRetry (fun _ => NetEvent.response 503 false none)).delays =
        [fiboWait 0, fiboWait 1]) ∧
    (HttpFetcher.fetch "https://api.example.com/v1"
        (fun n => if n < 2 then NetEvent.response 503 false none
          else NetEvent.response 200 true (some (Py.num 7))) = some (Py.num 7) ∧
      (fetchRetry (fun n => if n < 2 then NetEvent.response 503 false none
          else NetEvent.response 200 true (some (Py.num 7)))).attempts = 3) := by
  constructor
  · have h := (claim_C3 "https://api.example.com/v1"
      (fun _ => NetEvent.response 503 false none)).1 (fun i _ => rfl)
    exact ⟨fun i _ => rfl, h.1, h.2.2.1, h.2.2.2⟩
  · have h := (claim_C3 "https://api.example.com/v1"
      (fun n => if n < 2 then NetEvent.response 503 false none
        else NetEvent.response 200 true (some (Py.num 7)))).2 2 (some (Py.num 7))
      (by decide)
      (fun i hi => by interval_cases i <;> rfl)
      (by rfl)
    exact ⟨h.1, h.2.1⟩

/-! ## Lemmas about the responses table -/

theorem tableUpsert_cons (r : CacheRow) (t : CacheTable) (k : String) (s : Stored)
    (ts : Int) :
    RequestsCache.tableUpsert (r :: t) k s ts =
      if r.1 = k then RequestsCache.tableUpsert t k s ts
      else r :: RequestsCache.tableUpsert t k s ts := by
  by_cases hr : r.1 = k <;> simp [RequestsCache.tableUpsert, List.filter_cons, hr]

theorem tableLookup_upsert_self (t : CacheTable) (k : String) (s : Stored) (ts : Int) :
    RequestsCache.tableLookup (RequestsCache.tableUpsert t k s ts) k = some (s, ts) := by
  induction t with
  | nil => simp [RequestsCache.tableUpsert, RequestsCache.tableLookup]
  | cons r rs ih =>
    rw [tableUpsert_cons]
    by_cases hr : r.1 = k
    · simpa [hr] using ih
    · simpa [RequestsCache.tableLookup, hr] using ih

theorem tableLookup_upsert_other (t : CacheTable) (k k' : String) (s : Stored)
    (ts : Int) (h : k' ≠ k) :
    RequestsCache.tableLookup (RequestsCache.tableUpsert t k s ts) k' =
      RequestsCache.tableLookup t k' := by
  have hkk : ¬ k = k' := fun hc => h hc.symm
  induction t with
  | nil => simp [RequestsCache.tableUpsert, RequestsCache.tableLookup, hkk]
  | cons r rs ih =>
    rw [tableUpsert_cons]
    by_cases hr : r.1 = k
    · have hr' : ¬ r.1 = k' := by rw [hr]; exact hkk
      simpa [RequestsCache.tableLookup, hr, hr', hkk] using ih
    · by_cases hr' : r.1 = k'
      · simp [RequestsCache.tableLookup, hr, hr', h]
      · simpa [RequestsCache.tableLookup, hr, hr'] using ih

/-! ## Claim C4: 404 is a valid "no data" response -/

/-- C4, corrected: the claim is quantified over every URL whose response
has status 404, but the source only returns the body as a payload when the
content type is JSON; a 404 whose body is not JSON falls into the
non-JSON branch of `_fetch_retry` and is returned as `None` (absence), and
`None` results are never written to the cache.  Amended statement: a 404
response with a JSON content type is a valid result, not an error — no
retry, no exception, the decoded body is returned by `fetch`, and a
subsequent cache-enabled `CachedDataFetcher.fetch` whose cache lookup came
back falsy stores the body in the cache under the normalized URL with the
current timestamp whenever it is non-`None` (a 404 body decoding to JSON
null is returned but, like every `None`, not cached). -/
theorem claim_C4_amended (url : String) (events : Nat → NetEvent) (v : Option Py)
    (cache : RequestsCache) (t : CacheTable) (now : Int)
    (h404 : events 0 = NetEvent.response 404 true v)
    (hconn : cache.conn = some t)
    (hmiss : pyTruthy (cache.retrieve url).1 = false) :
    HttpFetcher.fetch url events = v ∧
    (fetchRetry events).attempts = 1 ∧
    (fetchRetry events).delays = [] ∧
    (CachedDataFetcher.fetch cache url events false now).result = v ∧
    (∀ w, v = some w →
      (CachedDataFetcher.fetch cache url events false now).cache.conn =
        some (RequestsCache.tableUpsert t (RequestsCache.normalize_url url)
          (.ok (some w)) now) ∧
      RequestsCache.tableLookup
        (RequestsCache.tableUpsert t (RequestsCache.normalize_url url)
          (.ok (some w)) now)
        (RequestsCache.normalize_url url) = some (.ok (some w), now)) ∧
    (v = none → (CachedDataFetcher.fetch cache url events false now).cache = cache) := by
  have hclass : classifyAttempt (events 0) = .ok v := by
    rw [h404]; rfl
  have e : fetchRetry events = ⟨.ok v, 1, []⟩ := by
    rw [fetchRetry_eq, hclass]
  have hfetch : HttpFetcher.fetch url events = v :=
    HttpFetcher.fetch_eq_of_outcome_ok url events v (by rw [e])
  have hout : (CachedDataFetcher.fetch cache url events false now).result = v ∧
      (CachedDataFetcher.fetch cache url events false now).cache =
        (if v.isSome then cache.create_or_update url v now else cache) := by
    unfold CachedDataFetcher.fetch
    simp [hmiss, hfetch]
  refine ⟨hfetch, by rw [e], by rw [e], hout.1, ?_, ?_⟩
  · intro w hw
    subst hw
    refine ⟨?_, tableLookup_upsert_self t _ _ now⟩
    rw [hout.2]
    simp [RequestsCache.create_or_update, hconn]
  · intro hn
    subst hn
    rw [hout.2]
    rfl

/-- C4, counterexample to the claim as stated: a 404 response whose body is
not JSON is returned by the transport as `None` — an absence, not a
payload — and a subsequent cache-enabled fetch stores nothing (the cache
table stays empty). -/
theorem claim_C4_counterexample :
    HttpFetcher.fetch "https://a.com/x" (fun _ => NetEvent.response 404 false none) =
      none ∧
    (CachedDataFetcher.fetch ⟨some [], 0⟩ "https://a.com/x"
      (fun _ => NetEvent.response 404 false none) false 0).cache.conn = some [] := by
  exact ⟨rfl, rfl⟩

/-- Witness for C4 at concrete inputs: a 404 response with JSON body `{}`
on an empty cache is returned as the payload `{}` in one attempt and is
written to the cache under the normalized URL. -/
theorem claim_C4_witness :
    ((fun (_ : Nat) => NetEvent.response 404 true (some (Py.dict []))) 0 =
      NetEvent.response 404 true (some (Py.dict []))) ∧
    (RequestsCache.mk (some []) 0).conn = some [] ∧
    pyTruthy ((RequestsCache.mk (some []) 0).retrieve "https://a.com/x").1 = false ∧
    HttpFetcher.fetch "https://a.com/x"
      (fun _ => NetEvent.response 404 true (some (Py.dict []))) = some (Py.dict []) ∧
    (CachedDataFetcher.fetch ⟨some [], 0⟩ "https://a.com/x"
      (fun _ => NetEvent.response 404 true (some (Py.dict []))) false 7).cache.conn =
      some (RequestsCache.tableUpsert [] (RequestsCache.normalize_url "https://a.com/x")
        (.ok (some (Py.dict []))) 7) := by
  have h := claim_C4_amended "https://a.com/x"
    (fun _ => NetEvent.response 404 true (some (Py.dict []))) (some (Py.dict []))
    ⟨some [], 0⟩ [] 7 rfl rfl rfl
  exact ⟨rfl, rfl, rfl, h.1, (h.2.2.2.2.1 (Py.dict []) rfl).1⟩

/-! ## Lemmas about CachedDataFetcher.fetch -/

theorem fetch_spec_truthy (cache : RequestsCache) (url : String)
    (events : Nat → NetEvent) (now : Int)
    (hb : pyTruthy (cache.retrieve url).1 = true) :
    CachedDataFetcher.fetch cache url events false now =
      ⟨(cache.retrieve url).1,
       if (cache.retrieve url).1.isSome then
         cache.create_or_update url (cache.retrieve url).1 now
       else cache,
       false⟩ := by
  unfold CachedDataFetcher.fetch
  simp [hb]

theorem fetch_spec_falsy (cache : RequestsCache) (url : String)
    (events : Nat → NetEvent) (now : Int)
    (hb : pyTruthy (cache.retrieve url).1 = false) :
    CachedDataFetcher.fetch cache url events false now =
      ⟨HttpFetcher.fetch url events,
       if (HttpFetcher.fetch url events).isSome then
         cache.create_or_update url (HttpFetcher.fetch url events) now
       else cache,
       true⟩ := by
  unfold CachedDataFetcher.fetch
  simp [hb]

/-! ## Claim C1: cache-first resolution in CachedDataFetcher.fetch -/

/-- C1, corrected: the claim says a cache hit is always returned without
invoking the transport, but the source guards the transport call with
`if not result:` — Python truthiness — so a cached payload that is falsy
(for example the empty JSON object) is treated like a miss: the transport
is invoked and its result, not the stored payload, is returned.  Amended
statement: with `bypass_cache` set, the cache is not consulted, the
transport is always invoked and the cache is left untouched; with
`bypass_cache` unset, the cache is consulted first and (a) a truthy cached
payload is returned without invoking the transport, (b) on a falsy cache
outcome (miss, decode failure, or falsy stored payload) the transport is
invoked and its result returned, (c) a non-`None` result — from either
source — is stored before returning, and a `None` result leaves the cache
untouched. -/
theorem claim_C1_amended (cache : RequestsCache) (url : String)
    (events : Nat → NetEvent) (now : Int) :
    ((CachedDataFetcher.fetch cache url events true now).transportCalled = true ∧
      (CachedDataFetcher.fetch cache url events true now).result =
        HttpFetcher.fetch url events ∧
      (CachedDataFetcher.fetch cache url events true now).cache = cache) ∧
    (pyTruthy (cache.retrieve url).1 = true →
      (CachedDataFetcher.fetch cache url events false now).result =
        (cache.retrieve url).1 ∧
      (CachedDataFetcher.fetch cache url events false now).transportCalled = false) ∧
    (pyTruthy (cache.retrieve url).1 = false →
      (CachedDataFetcher.fetch cache url events false now).transportCalled = true ∧
      (CachedDataFetcher.fetch cache url events false now).result =
        HttpFetcher.fetch url events) ∧
    ((CachedDataFetcher.fetch cache url events false now).result.isSome = true →
      (CachedDataFetcher.fetch cache url events false now).cache =
        cache.create_or_update url
          (CachedDataFetcher.fetch cache url events false now).result now) ∧
    ((CachedDataFetcher.fetch cache url events false now).result = none →
      (CachedDataFetcher.fetch cache url events false now).cache = cache) := by
  have hspecT := fetch_spec_truthy cache url events now
  have hspecF := fetch_spec_falsy cache url events now
  refine ⟨⟨rfl, rfl, rfl⟩, ?_, ?_, ?_, ?_⟩
  · intro h
    rw [hspecT h]
    exact ⟨rfl, rfl⟩
  · intro h
    rw [hspecF h]
    exact ⟨rfl, rfl⟩
  · intro h
    by_cases ht : pyTruthy (cache.retrieve url).1
    · rw [hspecT ht] at h ⊢
      dsimp only at h ⊢
      rw [if_pos h]
    · rw [hspecF (by simpa using ht)] at h ⊢
      dsimp only at h ⊢
      rw [if_pos h]
  · intro h
    by_cases ht : pyTruthy (cache.retrieve url).1
    · rw [hspecT ht] at h ⊢
      dsimp only at h ⊢
      rw [h]
      simp
    · rw [hspecF (by simpa using ht)] at h ⊢
      dsimp only at h ⊢
      rw [h]
      simp

/-- C1, counterexample to the claim as stated: with the falsy payload `{}`
stored for the URL, `retrieve` returns the stored payload (a cache hit),
yet `fetch` with `bypass_cache=False` invokes the transport and returns
the transport payload instead of the stored one. -/
theorem claim_C1_counterexample :
    (RequestsCache.retrieve ⟨some [("https://a.com/x", .ok (some (Py.dict [])), 0)], 0⟩
      "https://a.com/x").1 = some (Py.dict []) ∧
    (CachedDataFetcher.fetch
      ⟨some [("https://a.com/x", .ok (some (Py.dict [])), 0)], 0⟩ "https://a.com/x"
      (fun _ => NetEvent.response 200 true (some (Py.str "fresh"))) false
      1).transportCalled = true ∧
    (CachedDataFetcher.fetch
      ⟨some [("https://a.com/x", .ok (some (Py.dict [])), 0)], 0⟩ "https://a.com/x"
      (fun _ => NetEvent.response 200 true (some (Py.str "fresh"))) false 1).result =
      some (Py.str "fresh") ∧
    some (Py.str "fresh") ≠ some (Py.dict ([] : List (String × Py))) := by
  refine ⟨rfl, rfl, rfl, ?_⟩
  intro h
  exact Py.noConfusion (Option.some.inj h)

/-- Witness for C1 at concrete inputs: with a truthy stored payload the
transport is not called and the stored payload is returned. -/
theorem claim_C1_witness :
    pyTruthy ((RequestsCache.mk
        (some [("https://a.com/x", .ok (some (Py.num 3)), 0)]) 0).retrieve
        "https://a.com/x").1 = true ∧
    (CachedDataFetcher.fetch
      ⟨some [("https://a.com/x", .ok (some (Py.num 3)), 0)], 0⟩ "https://a.com/x"
      (fun _ => NetEvent.response 200 true (some (Py.str "fresh"))) false 1).result =
      some (Py.num 3) ∧
    (CachedDataFetcher.fetch
      ⟨some [("https://a.com/x", .ok (some (Py.num 3)), 0)], 0⟩ "https://a.com/x"
      (fun _ => NetEvent.response 200 true (some (Py.str "fresh"))) false
      1).transportCalled = false := by
  have h := (claim_C1_amended
    ⟨some [("https://a.com/x", .ok (some (Py.num 3)), 0)], 0⟩ "https://a.com/x"
    (fun _ => NetEvent.response 200 true (some (Py.str "fresh"))) 1).2.1 (by rfl)
  exact ⟨rfl, h.1.trans rfl, h.2⟩

/-! ## Claim C7: fetch_many always returns a mapping keyed by the input -/

/-- C7, code bug: the claim (and the spec) promise that `fetch_many`
returns normally for every combination of the flags, but with
`bypass_cache=True` the source binds `results, misses = ([], urls)` — a
Python list — and the subsequent `results.update(api_results)` raises
`AttributeError`, so no mapping is returned at all.  The theorem evaluates
the model at a failing input and shows the error is universal for the
bypass branch. -/
theorem claim_C7_code_bug :
    CachedDataFetcher.fetch_all ⟨some [], 0⟩ ["https://a.com/x"]
      (fun _ _ => NetEvent.response 200 true (some (Py.num 1))) true 0 =
      .error "AttributeError: list object has no attribute update" ∧
    (∀ (cache : RequestsCache) (urls : List String) (events : String → Nat → NetEvent)
      (now : Int),
      CachedDataFetcher.fetch_all cache urls events true now =
        .error "AttributeError: list object has no attribute update") := by
  exact ⟨rfl, fun cache urls events now => rfl⟩

/-! ## Claim C9: singleton construction is process-wide idempotent -/

/-- C9, confirmed: under the `Singleton` metaclass, the first construction
stores the instance in the per-class registry and every later construction
returns that same stored instance without running the constructor, so the
later constructor arguments are ignored — in particular a second
`HttpFetcher(b)` after a first `HttpFetcher(a)` yields the instance whose
`max_nb_requests` is `a`.  All callers of `HttpFetcher()` and
`CachedDataFetcher()` in a process therefore share one instance each: one
transport with one rate budget, and one cached fetcher owning one cache. -/
theorem claim_C9 :
    (∀ {α : Type} (ctor1 ctor2 : Unit → α),
      (Singleton.call (Singleton.call none ctor1).2 ctor2).1 =
        (Singleton.call none ctor1).1 ∧
      (Singleton.call (Singleton.call none ctor1).2 ctor2).2 =
        (Singleton.call none ctor1).2) ∧
    (∀ a b : Nat,
      (Singleton.call (Singleton.call none (fun _ => HttpFetcher.init a)).2
        (fun _ => HttpFetcher.init b)).1 = HttpFetcher.init a ∧
      (Singleton.call (Singleton.call none (fun _ => HttpFetcher.init a)).2
        (fun _ => HttpFetcher.init b)).1.max_nb_requests = a) := by
  exact ⟨fun ctor1 ctor2 => ⟨rfl, rfl⟩, fun a b => ⟨rfl, rfl⟩⟩

/-! ## Lemmas about batched upserts and flush -/

theorem tableLookup_foldUpsert_not_mem (values : List (String × Stored))
    (t : CacheTable) (now : Int) (k : String) (h : k ∉ values.map Prod.fst) :
    RequestsCache.tableLookup
      (values.foldl (fun tt kv => RequestsCache.tableUpsert tt kv.1 kv.2 now) t) k =
      RequestsCache.tableLookup t k := by
  induction values generalizing t with
  | nil => rfl
  | cons kv rest ih =>
    simp only [List.map_cons, List.mem_cons, not_or] at h
    rw [List.foldl_cons, ih (RequestsCache.tableUpsert t kv.1 kv.2 now) h.2,
      tableLookup_upsert_other t kv.1 k kv.2 now h.1]

theorem tableLookup_foldUpsert_mem (values : List (String × Stored))
    (t : CacheTable) (now : Int) (k : String) (h : k ∈ values.map Prod.fst) :
    ∃ s, RequestsCache.tableLookup
      (values.foldl (fun tt kv => RequestsCache.tableUpsert tt kv.1 kv.2 now) t) k =
      some (s, now) := by
  induction values generalizing t with
  | nil => simp at h
  | cons kv rest ih =>
    rw [List.foldl_cons]
    by_cases hr : k ∈ rest.map Prod.fst
    · exact ih (RequestsCache.tableUpsert t kv.1 kv.2 now) hr
    · have hk : kv.1 = k := by
        simp only [List.map_cons, List.mem_cons] at h
        rcases h with h | h
        · exact h.symm
        · exact absurd h hr
      refine ⟨kv.2, ?_⟩
      rw [tableLookup_foldUpsert_not_mem rest (RequestsCache.tableUpsert t kv.1 kv.2 now)
        now k hr, hk, tableLookup_upsert_self]

theorem tableLookup_append_left_none (A B : CacheTable) (k : String)
    (h : ∀ r ∈ A, r.1 ≠ k) :
    RequestsCache.tableLookup (A ++ B) k = RequestsCache.tableLookup B k := by
  induction A with
  | nil => rfl
  | cons r rs ih =>
    have hr := h r (List.mem_cons_self r rs)
    simp only [List.cons_append, RequestsCache.tableLookup, hr, if_false]
    exact ih fun x hx => h x (List.mem_cons_of_mem r hx)

theorem tableLookup_filter_upsert (t : CacheTable) (k : String) (s : Stored)
    (ts : Int) (p : CacheRow → Bool) (hp : p (k, s, ts) = true) :
    RequestsCache.tableLookup ((RequestsCache.tableUpsert t k s ts).filter p) k =
      some (s, ts) := by
  unfold RequestsCache.tableUpsert
  rw [List.filter_append]
  have hA : ∀ r ∈ (t.filter (fun r => decide (r.1 ≠ k))).filter p, r.1 ≠ k := by
    intro r hr
    have := List.of_mem_filter (List.mem_of_mem_filter hr)
    simpa using this
  rw [tableLookup_append_left_none _ _ k hA]
  simp [hp, RequestsCache.tableLookup]

/-! ## Claim C10: cache-enabled fetches refresh last_accessed on every
non-None result, hits included -/

/-- C10, confirmed.  Single fetch with caching enabled: whenever the
returned result is non-`None` — whether it came from the cache (a truthy
hit is written back) or from the transport — the row for the normalized
URL is rewritten with the value and `last_accessed = now`, and that fresh
row survives `flush(max_age)` run at the same instant for every
`max_age ≥ 1` (so the rewrite postpones eviction); a `None` result leaves
the cache state exactly unchanged.  Batched fetch with caching enabled:
every url mapped to a non-`None` result has its normalized key present
afterwards with `last_accessed = now`, and any key whose row changed is
the normalized key of some url with a non-`None` result — rows of urls
whose result is `None` are untouched. -/
theorem claim_C10 (cache : RequestsCache) (t : CacheTable) (url : String)
    (events : Nat → NetEvent) (urls : List String)
    (evs : String → Nat → NetEvent) (now : Int)
    (hconn : cache.conn = some t) :
    (∀ w, (CachedDataFetcher.fetch cache url events false now).result = some w →
      (CachedDataFetcher.fetch cache url events false now).cache.conn =
        some (RequestsCache.tableUpsert t (RequestsCache.normalize_url url)
          (.ok (some w)) now)) ∧
    ((CachedDataFetcher.fetch cache url events false now).result = none →
      (CachedDataFetcher.fetch cache url events false now).cache = cache) ∧
    (∀ (t2 : CacheTable) (w : Py) (age : Int), 1 ≤ age →
      RequestsCache.tableLookup
        (RequestsCache.tableUpsert t2 (RequestsCache.normalize_url url)
          (.ok (some w)) now)
        (RequestsCache.normalize_url url) = some (.ok (some w), now) ∧
      ∃ c2, RequestsCache.flush
          ⟨some (RequestsCache.tableUpsert t2 (RequestsCache.normalize_url url)
            (.ok (some w)) now), 0⟩ age now = .ok c2 ∧
        ∃ tb, c2.conn = some tb ∧
          RequestsCache.tableLookup tb (RequestsCache.normalize_url url) =
            some (.ok (some w), now)) ∧
    (∀ results cache2,
      CachedDataFetcher.fetch_all cache urls evs false now = .ok (results, cache2) →
      (∀ u w, (u, some w) ∈ results →
        ∃ s, RequestsCache.tableLookup (cache2.conn.getD [])
          (RequestsCache.normalize_url u) = some (s, now)) ∧
      (∀ k, RequestsCache.tableLookup (cache2.conn.getD []) k ≠
          RequestsCache.tableLookup t k →
        ∃ u w, (u, some w) ∈ results ∧ RequestsCache.normalize_url u = k)) := by
  have hsingle : ∀ w, (CachedDataFetcher.fetch cache url events false now).result = some w →
      (CachedDataFetcher.fetch cache url events false now).cache =
        cache.create_or_update url (some w) now := by
    intro w hw
    by_cases ht : pyTruthy (cache.retrieve url).1
    · rw [fetch_spec_truthy cache url events now ht] at hw ⊢
      dsimp only at hw ⊢
      rw [hw]
      simp
    · rw [fetch_spec_falsy cache url events now (by simpa using ht)] at hw ⊢
      dsimp only at hw ⊢
      rw [hw]
      simp
  refine ⟨?_, ?_, ?_, ?_⟩
  · intro w hw
    rw [hsingle w hw]
    simp [RequestsCache.create_or_update, hconn]
  · intro hn
    by_cases ht : pyTruthy (cache.retrieve url).1
    · rw [fetch_spec_truthy cache url events now ht] at hn ⊢
      dsimp only at hn ⊢
      rw [hn]
      simp
    · rw [fetch_spec_falsy cache url events now (by simpa using ht)] at hn ⊢
      dsimp only at hn ⊢
      rw [hn]
      simp
  · intro t2 w age hage
    refine ⟨tableLookup_upsert_self t2 _ _ now, ?_⟩
    have hneg : ¬ age < 0 := by omega
    have hflush : RequestsCache.flush
        ⟨some (RequestsCache.tableUpsert t2 (RequestsCache.normalize_url url)
          (.ok (some w)) now), 0⟩ age now =
        .ok ⟨some ((RequestsCache.tableUpsert t2 (RequestsCache.normalize_url url)
          (.ok (some w)) now).filter (fun r => decide (¬ r.2.2 ≤ now - age))),
          RequestsCache.updateCount 0 1⟩ := by
      unfold RequestsCache.flush
      rw [if_neg hneg]
    refine ⟨_, hflush, _, rfl, ?_⟩
    apply tableLookup_filter_upsert
    have : ¬ now ≤ now - age := by omega
    simpa using this
  · intro results cache2 hok
    have hok2 : results =
        (HttpFetcher.fetch_all (cache.retrieve_all urls).2.1 evs).foldl
          (fun acc p => RequestsCache.dictInsert acc p.1 p.2)
          (cache.retrieve_all urls).1 ∧
        cache2 = cache.create_or_update_all results now := by
      unfold CachedDataFetcher.fetch_all at hok
      simp only [Bool.false_eq_true, if_false, reduceIte, Except.ok.injEq,
        Prod.mk.injEq] at hok
      exact ⟨hok.1.symm, hok.1 ▸ hok.2.symm⟩
    have hconn2 : cache2.conn =
        some ((results.filterMap fun p =>
          match p.2 with
          | none => none
          | some v => some (RequestsCache.normalize_url p.1, Stored.ok (some v))).foldl
            (fun tt kv => RequestsCache.tableUpsert tt kv.1 kv.2 now) t) := by
      rw [hok2.2]
      unfold RequestsCache.create_or_update_all
      rw [hconn]
    constructor
    · intro u w hmem
      have hval : (RequestsCache.normalize_url u, Stored.ok (some w)) ∈
          results.filterMap fun p =>
            match p.2 with
            | none => none
            | some v => some (RequestsCache.normalize_url p.1, Stored.ok (some v)) := by
        exact List.mem_filterMap.mpr ⟨(u, some w), hmem, rfl⟩
      have hk : RequestsCache.normalize_url u ∈
          (results.filterMap fun p =>
            match p.2 with
            | none => none
            | some v => some (RequestsCache.normalize_url p.1, Stored.ok (some v))).map
            Prod.fst :=
        List.mem_map.mpr ⟨_, hval, rfl⟩
      rw [hconn2]
      simpa using tableLookup_foldUpsert_mem _ t now _ hk
    · intro k hne
      rw [hconn2] at hne
      simp only [Option.getD_some] at hne
      by_contra hco
      push_neg at hco
      apply hne
      apply tableLookup_foldUpsert_not_mem
      intro hk
      rcases List.mem_map.mp hk with ⟨kv, hkv, hfst⟩
      rcases List.mem_filterMap.mp hkv with ⟨p, hp, hpeq⟩
      rcases p with ⟨u, pv⟩
      cases pv with
      | none => simp at hpeq
      | some v =>
        simp only [Option.some.injEq] at hpeq
        apply hco u v hp
        rw [← hfst, ← hpeq]

/-- Witness for C10 at concrete inputs: on an empty cache, a fetch
returning the payload 5 writes the row with timestamp `now = 3`; the row
survives `flush 50` run at the same instant; and in the batched form the
url mapped to a non-`None` result has its normalized key stored with
timestamp `now`. -/
theorem claim_C10_witness :
    (RequestsCache.mk (some []) 0).conn = some [] ∧
    (CachedDataFetcher.fetch ⟨some [], 0⟩ "https://a.com/x"
      (fun _ => NetEvent.response 200 true (some (Py.num 5))) false 3).result =
      some (Py.num 5) ∧
    (CachedDataFetcher.fetch ⟨some [], 0⟩ "https://a.com/x"
      (fun _ => NetEvent.response 200 true (some (Py.num 5))) false 3).cache.conn =
      some (RequestsCache.tableUpsert [] (RequestsCache.normalize_url "https://a.com/x")
        (.ok (some (Py.num 5))) 3) ∧
    (1 : Int) ≤ 50 ∧
    RequestsCache.tableLookup
      (RequestsCache.tableUpsert [] (RequestsCache.normalize_url "https://a.com/x")
        (.ok (some (Py.num 5))) 3)
      (RequestsCache.normalize_url "https://a.com/x") =
      some (.ok (some (Py.num 5)), 3) ∧
    CachedDataFetcher.fetch_all ⟨some [], 0⟩ ["https://a.com/x"]
      (fun _ _ => NetEvent.response 200 true (some (Py.num 5))) false 3 =
      .ok ([("https://a.com/x", some (Py.num 5))],
        ⟨some [("https://a.com/x", Stored.ok (some (Py.num 5)), 3)], 1⟩) ∧
    (∃ s, RequestsCache.tableLookup [("https://a.com/x", Stored.ok (some (Py.num 5)), 3)]
      (RequestsCache.normalize_url "https://a.com/x") = some (s, 3)) := by
  have h := claim_C10 ⟨some [], 0⟩ [] "https://a.com/x"
    (fun _ => NetEvent.response 200 true (some (Py.num 5))) ["https://a.com/x"]
    (fun _ _ => NetEvent.response 200 true (some (Py.num 5))) 3 rfl
  refine ⟨rfl, rfl, h.1 (Py.num 5) rfl, by norm_num,
    (h.2.2.1 [] (Py.num 5) 50 (by norm_num)).1, rfl, ?_⟩
  have hall := (h.2.2.2 [("https://a.com/x", some (Py.num 5))]
    ⟨some [("https://a.com/x", Stored.ok (some (Py.num 5)), 3)], 1⟩ rfl).1
    "https://a.com/x" (Py.num 5) (by simp)
  simpa using hall

/-! ## Lemmas about dictionaries, the chunked SELECT and retrieve_all -/

/-- What `json.loads` makes of a stored payload inside `retrieve_all`:
a decodable value is returned as is, an undecodable one becomes `None`. -/
def decodeStored : Stored → Option Py
  | .ok v => v
  | .bad => none

theorem dictFind_insert {α β : Type} [DecidableEq α] (d : List (α × β)) (k k' : α)
    (v : β) :
    RequestsCache.dictFind (RequestsCache.dictInsert d k v) k' =
      if k' = k then some v else RequestsCache.dictFind d k' := by
  induction d with
  | nil =>
    simp only [RequestsCache.dictInsert, RequestsCache.dictFind]
    by_cases hk : k' = k
    · subst hk
      simp
    · have hk2 : ¬ k = k' := fun hc => hk hc.symm
      simp [hk, hk2]
  | cons p ps ih =>
    simp only [RequestsCache.dictInsert]
    by_cases hp : p.1 = k
    · simp only [hp, if_true]
      by_cases hk : k' = k
      · subst hk
        simp [RequestsCache.dictFind, hp]
      · have hk2 : ¬ k = k' := fun hc => hk hc.symm
        have hp2 : ¬ p.1 = k' := by rw [hp]; exact hk2
        simp [RequestsCache.dictFind, hk, hk2, hp2]
    · simp only [hp, if_false]
      by_cases hpk : p.1 = k'
      · have hk : ¬ k' = k := fun hc => hp (hpk.trans hc)
        simp [RequestsCache.dictFind, hpk, hk]
      · simp [RequestsCache.dictFind, hpk, ih]

theorem tableLookup_mem (t : CacheTable) (k : String) (s : Stored) (ts : Int)
    (h : RequestsCache.tableLookup t k = some (s, ts)) : (k, s, ts) ∈ t := by
  induction t with
  | nil => simp [RequestsCache.tableLookup] at h
  | cons r rs ih =>
    rcases r with ⟨rk, rv⟩
    by_cases hr : rk = k
    · simp only [RequestsCache.tableLookup, hr, if_true, Option.some.injEq] at h
      subst hr
      rw [← h]
      exact List.mem_cons_self _ _
    · simp only [RequestsCache.tableLookup, hr, if_false] at h
      exact List.mem_cons_of_mem _ (ih h)

theorem tableLookup_of_mem (t : CacheTable) (hnd : (t.map Prod.fst).Nodup)
    (k : String) (s : Stored) (ts : Int) (h : (k, s, ts) ∈ t) :
    RequestsCache.tableLookup t k = some (s, ts) := by
  induction t with
  | nil => simp at h
  | cons r rs ih =>
    simp only [List.map_cons, List.nodup_cons] at hnd
    rcases List.mem_cons.mp h with h | h
    · rw [← h]
      simp [RequestsCache.tableLookup]
    · have hk : k ∈ rs.map Prod.fst :=
        List.mem_map.mpr ⟨(k, s, ts), h, rfl⟩
      have hr : ¬ r.1 = k := fun hc => hnd.1 (hc ▸ hk)
      simp only [RequestsCache.tableLookup, hr, if_false]
      exact ih hnd.2 h

theorem tableLookup_isSome_iff (t : CacheTable) (k : String) :
    (RequestsCache.tableLookup t k).isSome = true ↔ ∃ s ts, (k, s, ts) ∈ t := by
  constructor
  · intro h
    rcases Option.isSome_iff_exists.mp h with ⟨⟨s, ts⟩, hs⟩
    exact ⟨s, ts, tableLookup_mem t k s ts hs⟩
  · rintro ⟨s, ts, hmem⟩
    induction t with
    | nil => simp at hmem
    | cons r rs ih =>
      by_cases hr : r.1 = k
      · simp [RequestsCache.tableLookup, hr]
      · rcases List.mem_cons.mp hmem with h | h
        · exact absurd (congrArg Prod.fst h.symm) hr
        · simpa [RequestsCache.tableLookup, hr] using ih h

theorem mem_sqlSelectIn_iff (t : CacheTable) (keys : List String) (k : String)
    (s : Stored) :
    (k, s) ∈ RequestsCache.sqlSelectIn t keys ↔
      k ∈ keys ∧ ∃ ts, (k, s, ts) ∈ t := by
  unfold RequestsCache.sqlSelectIn
  rw [List.mem_map]
  constructor
  · rintro ⟨r, hr, heq⟩
    have hmem := List.mem_of_mem_filter hr
    have hkeys := List.of_mem_filter hr
    rcases r with ⟨rk, rs, rts⟩
    simp only [Prod.mk.injEq] at heq
    rw [← heq.1, ← heq.2]
    exact ⟨by simpa using hkeys, rts, hmem⟩
  · rintro ⟨hk, ts, hmem⟩
    exact ⟨(k, s, ts), List.mem_filter.mpr ⟨hmem, by simpa using hk⟩, rfl⟩

theorem mem_keys_sqlSelectIn_iff (t : CacheTable) (keys : List String) (k : String) :
    k ∈ (RequestsCache.sqlSelectIn t keys).map Prod.fst ↔
      k ∈ keys ∧ (RequestsCache.tableLookup t k).isSome = true := by
  rw [List.mem_map]
  constructor
  · rintro ⟨⟨pk, ps⟩, hp, hfst⟩
    rcases (mem_sqlSelectIn_iff t keys pk ps).mp hp with ⟨hk, ts, hmem⟩
    subst hfst
    exact ⟨hk, (tableLookup_isSome_iff t pk).mpr ⟨ps, ts, hmem⟩⟩
  · rintro ⟨hk, hsome⟩
    rcases Option.isSome_iff_exists.mp hsome with ⟨⟨s, ts⟩, hs⟩
    exact ⟨(k, s), (mem_sqlSelectIn_iff t keys k s).mpr
      ⟨hk, ts, tableLookup_mem t k s ts hs⟩, rfl⟩

theorem dictFind_foldRows (t : CacheTable) (R : List (String × Stored))
    (acc : List (String × Stored)) (k : String)
    (hR : ∀ p ∈ R, ∃ ts, RequestsCache.tableLookup t p.1 = some (p.2, ts)) :
    RequestsCache.dictFind
      (R.foldl (fun a row => RequestsCache.dictInsert a row.1 row.2) acc) k =
      if k ∈ R.map Prod.fst then (RequestsCache.tableLookup t k).map Prod.fst
      else RequestsCache.dictFind acc k := by
  induction R generalizing acc with
  | nil => simp
  | cons r R2 ih =>
    rw [List.foldl_cons, ih (RequestsCache.dictInsert acc r.1 r.2)
      (fun p hp => hR p (List.mem_cons_of_mem r hp))]
    by_cases hR2 : k ∈ R2.map Prod.fst
    · simp [hR2]
    · by_cases hk : k = r.1
      · rcases hR r (List.mem_cons_self r R2) with ⟨ts, hts⟩
        subst hk
        simp [hR2, dictFind_insert, hts]
      · have hmem : ¬ k ∈ (r :: R2).map Prod.fst := by
          simp only [List.map_cons, List.mem_cons]
          push_neg
          exact ⟨hk, fun hc => hR2 (by simpa using hc)⟩
        simp [hR2, hmem, dictFind_insert, hk]

theorem chunksGo_flatten {α : Type} (n : Nat) (hn : n ≠ 0) :
    ∀ (fuel : Nat) (l : List α), l.length ≤ fuel →
      (RequestsCache.chunksGo n fuel l).flatten = l := by
  intro fuel
  induction fuel with
  | zero =>
    intro l hl
    cases l with
    | nil => rfl
    | cons x xs => simp at hl
  | succ fuel ih =>
    intro l hl
    cases l with
    | nil => rfl
    | cons x xs =>
      simp only [RequestsCache.chunksGo, List.flatten_cons]
      simp only [List.length_cons] at hl
      rw [ih ((x :: xs).drop n)
        (by simp only [List.length_drop, List.length_cons]; omega)]
      exact List.take_append_drop n (x :: xs)

theorem chunks_flatten {α : Type} (l : List α) (n : Nat) (hn : n ≠ 0) :
    (RequestsCache.chunks l n).flatten = l := by
  unfold RequestsCache.chunks
  rw [if_neg hn]
  exact chunksGo_flatten n hn l.length l le_rfl

theorem flatten_map_map {α β : Type} (cl : List (List α)) (g : α → β) :
    (cl.map (fun c => c.map g)).flatten = cl.flatten.map g := by
  induction cl with
  | nil => rfl
  | cons c cl ih =>
    simp only [List.map_cons, List.flatten_cons, List.map_append, ih]

theorem dictFind_buildCacheResults (t : CacheTable)
    (hnd : (t.map Prod.fst).Nodup) (urls : List String) (k : String) :
    RequestsCache.dictFind (RequestsCache.buildCacheResults t urls) k =
      if k ∈ urls.map RequestsCache.normalize_url then
        (RequestsCache.tableLookup t k).map Prod.fst
      else none := by
  have main : ∀ (cl : List (List String)) (acc : List (String × Stored))
      (S : List String),
      (∀ k2, RequestsCache.dictFind acc k2 =
        if k2 ∈ S then (RequestsCache.tableLookup t k2).map Prod.fst else none) →
      ∀ k2, RequestsCache.dictFind
        (cl.foldl (fun a chunk =>
          (RequestsCache.sqlSelectIn t (chunk.map RequestsCache.normalize_url)).foldl
            (fun a2 row => RequestsCache.dictInsert a2 row.1 row.2) a) acc) k2 =
        if k2 ∈ S ++ (cl.map (fun c => c.map RequestsCache.normalize_url)).flatten then
          (RequestsCache.tableLookup t k2).map Prod.fst
        else none := by
    intro cl
    induction cl with
    | nil =>
      intro acc S hacc k2
      simpa using hacc k2
    | cons c cl ih =>
      intro acc S hacc k2
      rw [List.foldl_cons]
      have hrows : ∀ p ∈ RequestsCache.sqlSelectIn t
          (c.map RequestsCache.normalize_url),
          ∃ ts, RequestsCache.tableLookup t p.1 = some (p.2, ts) := by
        rintro ⟨pk, ps⟩ hp
        rcases (mem_sqlSelectIn_iff t _ pk ps).mp hp with ⟨_, ts, hmem⟩
        exact ⟨ts, tableLookup_of_mem t hnd pk ps ts hmem⟩
      have hacc2 : ∀ k2, RequestsCache.dictFind
          ((RequestsCache.sqlSelectIn t (c.map RequestsCache.normalize_url)).foldl
            (fun a2 row => RequestsCache.dictInsert a2 row.1 row.2) acc) k2 =
          if k2 ∈ S ++ c.map RequestsCache.normalize_url then
            (RequestsCache.tableLookup t k2).map Prod.fst
          else none := by
        intro k2
        rw [dictFind_foldRows t _ acc k2 hrows]
        by_cases hrk : k2 ∈ (RequestsCache.sqlSelectIn t
          (c.map RequestsCache.normalize_url)).map Prod.fst
        · rcases (mem_keys_sqlSelectIn_iff t _ k2).mp hrk with ⟨hc, _⟩
          simp [hrk, List.mem_append, hc]
        · rw [if_neg hrk, hacc k2]
          by_cases hS : k2 ∈ S
          · simp [List.mem_append, hS]
          · by_cases hc : k2 ∈ c.map RequestsCache.normalize_url
            · have hnosome : ¬ (RequestsCache.tableLookup t k2).isSome = true :=
                fun hs => hrk ((mem_keys_sqlSelectIn_iff t _ k2).mpr ⟨hc, hs⟩)
              have : RequestsCache.tableLookup t k2 = none := by
                cases h : RequestsCache.tableLookup t k2 with
                | none => rfl
                | some x => exact absurd (by simp [h]) hnosome
              simp [List.mem_append, hS, hc, this]
            · simp [List.mem_append, hS, hc]
      have := ih _ (S ++ c.map RequestsCache.normalize_url) hacc2 k2
      rw [this]
      simp [List.append_assoc]
  have h0 : ∀ k2, RequestsCache.dictFind ([] : List (String × Stored)) k2 =
      if k2 ∈ ([] : List String) then
        (RequestsCache.tableLookup t k2).map Prod.fst else none := by
    intro k2
    simp [RequestsCache.dictFind]
  have := main (RequestsCache.chunks urls RequestsCache.SQL_MAX_VARIABLES) [] [] h0 k
  unfold RequestsCache.buildCacheResults
  rw [this]
  rw [List.nil_append, flatten_map_map,
    chunks_flatten urls RequestsCache.SQL_MAX_VARIABLES (by decide)]

theorem retrieveAllGo_missed (CR : List (String × Stored)) :
    ∀ (rest : List String) (hits : List (String × Option Py)) (missed : List String)
      (logs : List LogEvent),
      (RequestsCache.retrieveAllGo CR rest hits missed logs).2.1 =
        missed ++ rest.filter
          (fun u => (RequestsCache.dictFind CR (RequestsCache.normalize_url u)).isNone) := by
  intro rest
  induction rest with
  | nil => intro hits missed logs; simp [RequestsCache.retrieveAllGo]
  | cons u0 rest ih =>
    intro hits missed logs
    cases h0 : RequestsCache.dictFind CR (RequestsCache.normalize_url u0) with
    | none =>
      simp only [RequestsCache.retrieveAllGo, h0, List.filter_cons]
      rw [ih]
      simp [h0, List.append_assoc]
    | some s =>
      cases s with
      | ok v =>
        simp only [RequestsCache.retrieveAllGo, h0, List.filter_cons]
        rw [ih]
        simp [h0]
      | bad =>
        simp only [RequestsCache.retrieveAllGo, h0, List.filter_cons]
        rw [ih]
        simp [h0]

theorem retrieveAllGo_hits (CR : List (String × Stored)) :
    ∀ (rest : List String) (hits : List (String × Option Py)) (missed : List String)
      (logs : List LogEvent) (u : String),
      RequestsCache.dictFind (RequestsCache.retrieveAllGo CR rest hits missed logs).1 u =
        match RequestsCache.dictFind CR (RequestsCache.normalize_url u) with
        | some s => if u ∈ rest then some (decodeStored s) else RequestsCache.dictFind hits u
        | none => RequestsCache.dictFind hits u := by
  intro rest
  induction rest with
  | nil =>
    intro hits missed logs u
    cases RequestsCache.dictFind CR (RequestsCache.normalize_url u) <;>
      simp [RequestsCache.retrieveAllGo]
  | cons u0 rest ih =>
    intro hits missed logs u
    by_cases hu : u = u0
    · subst hu
      cases h0 : RequestsCache.dictFind CR (RequestsCache.normalize_url u) with
      | none =>
        simp only [RequestsCache.retrieveAllGo, h0]
        rw [ih]
        simp [h0]
      | some s =>
        cases s with
        | ok v =>
          simp only [RequestsCache.retrieveAllGo, h0]
          rw [ih]
          simp [h0, dictFind_insert, decodeStored]
        | bad =>
          simp only [RequestsCache.retrieveAllGo, h0]
          rw [ih]
          simp [h0, dictFind_insert, decodeStored]
    · have hmem : (u ∈ u0 :: rest) = (u ∈ rest) := by
        simp [List.mem_cons, hu]
      cases h0 : RequestsCache.dictFind CR (RequestsCache.normalize_url u0) with
      | none =>
        simp only [RequestsCache.retrieveAllGo, h0]
        rw [ih]
        cases RequestsCache.dictFind CR (RequestsCache.normalize_url u) <;> simp [hmem]
      | some s =>
        have hins : ∀ v, RequestsCache.dictFind
            (RequestsCache.dictInsert hits u0 v) u = RequestsCache.dictFind hits u := by
          intro v
          rw [dictFind_insert]
          simp [hu]
        cases s with
        | ok v =>
          simp only [RequestsCache.retrieveAllGo, h0]
          rw [ih]
          cases RequestsCache.dictFind CR (RequestsCache.normalize_url u) <;>
            simp [hmem, hins]
        | bad =>
          simp only [RequestsCache.retrieveAllGo, h0]
          rw [ih]
          cases RequestsCache.dictFind CR (RequestsCache.normalize_url u) <;>
            simp [hmem, hins]

theorem retrieveAllGo_logs (CR : List (String × Stored)) :
    ∀ (rest : List String) (hits : List (String × Option Py)) (missed : List String)
      (logs : List LogEvent),
      (RequestsCache.retrieveAllGo CR rest hits missed logs).2.2 =
        logs ++ rest.filterMap (fun u =>
          match RequestsCache.dictFind CR (RequestsCache.normalize_url u) with
          | some .bad => some (.retrieveAllDecodeError (RequestsCache.normalize_url u))
          | _ => none) := by
  intro rest
  induction rest with
  | nil => intro hits missed logs; simp [RequestsCache.retrieveAllGo]
  | cons u0 rest ih =>
    intro hits missed logs
    cases h0 : RequestsCache.dictFind CR (RequestsCache.normalize_url u0) with
    | none =>
      simp only [RequestsCache.retrieveAllGo, h0, List.filterMap_cons]
      rw [ih]
    | some s =>
      cases s with
      | ok v =>
        simp only [RequestsCache.retrieveAllGo, h0, List.filterMap_cons]
        rw [ih]
      | bad =>
        simp only [RequestsCache.retrieveAllGo, h0, List.filterMap_cons]
        rw [ih]
        simp [h0, List.append_assoc]

/-! ## Claim C2: batch lookup versus per-URL lookup -/

/-- C2, corrected.  The claim demands that `retrieve_all` hit exactly the
URLs for which `retrieve` returns non-`None`; the source instead reports a
URL whose stored payload fails to decode (and one whose payload is the
JSON text `null`) as a *hit with payload `None`*, while `retrieve` reports
it as a miss.  Amended statement, for every cache table satisfying the
PRIMARY KEY constraint and every url list of any length (the 900-key
chunking is performed inside `retrieve_all` and never affects the
result): the misses are exactly the input urls, in order and with
multiplicity, whose normalized key is absent from the table; the hits map
each input url whose normalized key is present to the decoded stored
payload, with `None` when decoding raises; `retrieve` returns the stored
payload only when it decodes to a non-null value; hence `get_many` agrees
with per-URL `get` on every url whose entry decodes to a non-null value,
and reports a hit with payload `None` (instead of a miss) exactly on the
urls with a stored but undecodable-or-null entry. -/
theorem claim_C2_amended (t : CacheTable) (ap : Nat) (urls : List String)
    (hnd : (t.map Prod.fst).Nodup) :
    ((RequestsCache.mk (some t) ap).retrieve_all urls).2.1 =
      urls.filter (fun u =>
        (RequestsCache.tableLookup t (RequestsCache.normalize_url u)).isNone) ∧
    (∀ u, RequestsCache.dictFind ((RequestsCache.mk (some t) ap).retrieve_all urls).1 u =
      if u ∈ urls then
        (RequestsCache.tableLookup t (RequestsCache.normalize_url u)).map
          (fun p => decodeStored p.1)
      else none) ∧
    (∀ u, ((RequestsCache.mk (some t) ap).retrieve u).1 =
      match RequestsCache.tableLookup t (RequestsCache.normalize_url u) with
      | some (.ok v, _) => v
      | _ => none) ∧
    (∀ u, u ∈ urls → ((RequestsCache.mk (some t) ap).retrieve u).1.isSome = true →
      RequestsCache.dictFind ((RequestsCache.mk (some t) ap).retrieve_all urls).1 u =
        some ((RequestsCache.mk (some t) ap).retrieve u).1) := by
  have hCR := dictFind_buildCacheResults t hnd urls
  have hretr : ∀ u, ((RequestsCache.mk (some t) ap).retrieve u).1 =
      match RequestsCache.tableLookup t (RequestsCache.normalize_url u) with
      | some (.ok v, _) => v
      | _ => none := by
    intro u
    unfold RequestsCache.retrieve
    cases h : RequestsCache.tableLookup t (RequestsCache.normalize_url u) with
    | none => simp [h]
    | some p =>
      rcases p with ⟨sv, ts⟩
      cases sv <;> simp [h]
  have hhits : ∀ u,
      RequestsCache.dictFind ((RequestsCache.mk (some t) ap).retrieve_all urls).1 u =
      if u ∈ urls then
        (RequestsCache.tableLookup t (RequestsCache.normalize_url u)).map
          (fun p => decodeStored p.1)
      else none := by
    intro u
    show RequestsCache.dictFind
      (RequestsCache.retrieveAllGo (RequestsCache.buildCacheResults t urls)
        urls [] [] []).1 u = _
    rw [retrieveAllGo_hits]
    by_cases hu : u ∈ urls
    · have hk : RequestsCache.normalize_url u ∈ urls.map RequestsCache.normalize_url :=
        List.mem_map.mpr ⟨u, hu, rfl⟩
      rw [hCR (RequestsCache.normalize_url u), if_pos hk]
      cases hl : RequestsCache.tableLookup t (RequestsCache.normalize_url u) with
      | none => simp [RequestsCache.dictFind, hu]
      | some p => simp [RequestsCache.dictFind, hu]
    · cases hcr : RequestsCache.dictFind (RequestsCache.buildCacheResults t urls)
        (RequestsCache.normalize_url u) with
      | none => simp [RequestsCache.dictFind, hu]
      | some p => simp [RequestsCache.dictFind, hu]
  refine ⟨?_, hhits, hretr, ?_⟩
  · show (RequestsCache.retrieveAllGo (RequestsCache.buildCacheResults t urls)
      urls [] [] []).2.1 = _
    rw [retrieveAllGo_missed]
    rw [List.nil_append]
    apply List.filter_congr
    intro u hu
    have hk : RequestsCache.normalize_url u ∈ urls.map RequestsCache.normalize_url :=
      List.mem_map.mpr ⟨u, hu, rfl⟩
    rw [hCR (RequestsCache.normalize_url u), if_pos hk]
    cases RequestsCache.tableLookup t (RequestsCache.normalize_url u) <;> rfl
  · intro u hu hsome
    rw [hhits u, if_pos hu]
    rw [hretr u] at hsome ⊢
    cases hl : RequestsCache.tableLookup t (RequestsCache.normalize_url u) with
    | none =>
      rw [hl] at hsome
      exact Bool.noConfusion hsome
    | some p =>
      rcases p with ⟨sv, ts⟩
      cases sv with
      | ok v => rfl
      | bad =>
        rw [hl] at hsome
        exact Bool.noConfusion hsome

/-- C2, counterexample to the claim as stated: with a single stored entry
whose payload does not decode, `retrieve` returns `None` (so the claim
requires `retrieve_all` to report the url as a miss), but `retrieve_all`
reports no miss at all and instead a hit mapping the url to `None`. -/
theorem claim_C2_counterexample :
    (RequestsCache.retrieve ⟨some [("https://a.com/x", .bad, 0)], 0⟩
      "https://a.com/x").1 = none ∧
    (RequestsCache.retrieve_all ⟨some [("https://a.com/x", .bad, 0)], 0⟩
      ["https://a.com/x"]).2.1 = [] ∧
    (RequestsCache.retrieve_all ⟨some [("https://a.com/x", .bad, 0)], 0⟩
      ["https://a.com/x"]).1 = [("https://a.com/x", none)] := by
  exact ⟨rfl, rfl, rfl⟩

/-- Witness for C2 at concrete inputs: a two-url batch against a one-entry
table with distinct primary keys; the stored url is a hit with its decoded
payload (agreeing with `retrieve`), the other is the only miss. -/
theorem claim_C2_witness :
    ([("https://a.com/x", Stored.ok (some (Py.num 1)), 0)].map Prod.fst).Nodup ∧
    (RequestsCache.retrieve_all ⟨some [("https://a.com/x", .ok (some (Py.num 1)), 0)], 0⟩
      ["https://a.com/x", "https://a.com/y"]).2.1 =
      ["https://a.com/x", "https://a.com/y"].filter (fun u =>
        (RequestsCache.tableLookup [("https://a.com/x", Stored.ok (some (Py.num 1)), 0)]
          (RequestsCache.normalize_url u)).isNone) ∧
    RequestsCache.dictFind
      (RequestsCache.retrieve_all ⟨some [("https://a.com/x", .ok (some (Py.num 1)), 0)], 0⟩
        ["https://a.com/x", "https://a.com/y"]).1 "https://a.com/x" =
      some ((RequestsCache.retrieve
        ⟨some [("https://a.com/x", .ok (some (Py.num 1)), 0)], 0⟩ "https://a.com/x").1) := by
  have h := claim_C2_amended [("https://a.com/x", .ok (some (Py.num 1)), 0)] 0
    ["https://a.com/x", "https://a.com/y"] (by simp)
  exact ⟨by simp, h.1, h.2.2.2 "https://a.com/x" (by simp) (by rfl)⟩

/-! ## Claim C8: undecodable stored payloads -/

/-- C8, corrected.  The single lookup behaves as claimed: an entry whose
payload fails to decode is treated as a miss, the decode error is logged,
nothing is raised (the model is total and returns `None`).  The batched
lookup logs the error and raises nothing, but does NOT treat the url as a
miss: it reports it among the hits with payload `None`.  Amended
statement: for a url whose stored entry fails to decode, `retrieve`
returns `None` with a logged `retrieveDecodeError`, and `retrieve_all`
reports the url with payload `None` among the hits — not among the
misses — with a logged `retrieveAllDecodeError`. -/
theorem claim_C8_amended (t : CacheTable) (ap : Nat) (urls : List String)
    (u : String) (ts : Int) (hnd : (t.map Prod.fst).Nodup) (hmem : u ∈ urls)
    (hbad : RequestsCache.tableLookup t (RequestsCache.normalize_url u) =
      some (.bad, ts)) :
    (RequestsCache.mk (some t) ap).retrieve u =
      (none, [.retrieveDecodeError (RequestsCache.normalize_url u)]) ∧
    RequestsCache.dictFind ((RequestsCache.mk (some t) ap).retrieve_all urls).1 u =
      some none ∧
    u ∉ ((RequestsCache.mk (some t) ap).retrieve_all urls).2.1 ∧
    LogEvent.retrieveAllDecodeError (RequestsCache.normalize_url u) ∈
      ((RequestsCache.mk (some t) ap).retrieve_all urls).2.2 := by
  have hCR := dictFind_buildCacheResults t hnd urls
  have hk : RequestsCache.normalize_url u ∈ urls.map RequestsCache.normalize_url :=
    List.mem_map.mpr ⟨u, hmem, rfl⟩
  have hCRu : RequestsCache.dictFind (RequestsCache.buildCacheResults t urls)
      (RequestsCache.normalize_url u) = some .bad := by
    rw [hCR (RequestsCache.normalize_url u), if_pos hk, hbad]
    rfl
  refine ⟨?_, ?_, ?_, ?_⟩
  · unfold RequestsCache.retrieve
    simp [hbad]
  · show RequestsCache.dictFind
      (RequestsCache.retrieveAllGo (RequestsCache.buildCacheResults t urls)
        urls [] [] []).1 u = _
    rw [retrieveAllGo_hits, hCRu]
    simp [hmem, decodeStored]
  · show u ∉ (RequestsCache.retrieveAllGo (RequestsCache.buildCacheResults t urls)
      urls [] [] []).2.1
    rw [retrieveAllGo_missed, List.nil_append]
    intro hc
    have := List.of_mem_filter hc
    rw [hCRu] at this
    simp at this
  · show LogEvent.retrieveAllDecodeError (RequestsCache.normalize_url u) ∈
      (RequestsCache.retrieveAllGo (RequestsCache.buildCacheResults t urls)
        urls [] [] []).2.2
    rw [retrieveAllGo_logs, List.nil_append]
    apply List.mem_filterMap.mpr
    refine ⟨u, hmem, ?_⟩
    rw [hCRu]

/-- C8, counterexample to the claim as stated: for a url whose stored
payload does not decode, the claim requires both lookups to treat the url
as a cache miss, but `retrieve_all` returns it as a hit with payload
`None` and an empty miss list (while logging the decode error). -/
theorem claim_C8_counterexample :
    (RequestsCache.retrieve_all ⟨some [("https://a.com/y", .bad, 0)], 0⟩
      ["https://a.com/y"]).2.1 = [] ∧
    (RequestsCache.retrieve_all ⟨some [("https://a.com/y", .bad, 0)], 0⟩
      ["https://a.com/y"]).1 = [("https://a.com/y", none)] ∧
    (RequestsCache.retrieve_all ⟨some [("https://a.com/y", .bad, 0)], 0⟩
      ["https://a.com/y"]).2.2 =
      [.retrieveAllDecodeError "https://a.com/y"] ∧
    (RequestsCache.retrieve ⟨some [("https://a.com/y", .bad, 0)], 0⟩
      "https://a.com/y") = (none, [.retrieveDecodeError "https://a.com/y"]) := by
  exact ⟨rfl, rfl, rfl, rfl⟩

/-- Witness for C8 at concrete inputs. -/
theorem claim_C8_witness :
    ([("https://a.com/z", Stored.bad, 4)].map Prod.fst).Nodup ∧
    "https://a.com/z" ∈ ["https://a.com/z"] ∧
    RequestsCache.tableLookup [("https://a.com/z", Stored.bad, 4)]
      (RequestsCache.normalize_url "https://a.com/z") = some (.bad, 4) ∧
    (RequestsCache.mk (some [("https://a.com/z", Stored.bad, 4)]) 0).retrieve
      "https://a.com/z" =
      (none, [.retrieveDecodeError (RequestsCache.normalize_url "https://a.com/z")]) ∧
    "https://a.com/z" ∉
      ((RequestsCache.mk (some [("https://a.com/z", Stored.bad, 4)]) 0).retrieve_all
        ["https://a.com/z"]).2.1 := by
  have h := claim_C8_amended [("https://a.com/z", Stored.bad, 4)] 0 ["https://a.com/z"]
    "https://a.com/z" 4 (by simp) (by simp) (by rfl)
  exact ⟨by simp, by simp, by rfl, h.1, h.2.2.1⟩

/-! ## Lemmas about the stable parameter sort -/

theorem strLt_irrefl (a : List Char) : strLt a a = false := by
  induction a with
  | nil => rfl
  | cons x xs ih => simp [strLt, ih]

theorem strLt_trans (a b c : List Char) (h1 : strLt a b = true)
    (h2 : strLt b c = true) : strLt a c = true := by
  induction a generalizing b c with
  | nil =>
    cases b with
    | nil => simp [strLt] at h1
    | cons y ys =>
      cases c with
      | nil => simp [strLt] at h2
      | cons z zs => rfl
  | cons x xs ih =>
    cases b with
    | nil => simp [strLt] at h1
    | cons y ys =>
      cases c with
      | nil => simp [strLt] at h2
      | cons z zs =>
        simp only [strLt] at h1 h2 ⊢
        by_cases hxy : x = y
        · subst hxy
          simp only [if_pos rfl] at h1
          by_cases hyz : x = z
          · subst hyz
            simp only [if_pos rfl] at h2 ⊢
            exact ih ys zs h1 h2
          · simp only [hyz, if_neg hyz] at h2 ⊢
            exact h2
        · simp only [hxy, if_neg hxy] at h1
          by_cases hyz : y = z
          · subst hyz
            simp only [if_neg hxy]
            exact h1
          · simp only [hyz, if_neg hyz] at h2
            have hxz : x < z := lt_trans (of_decide_eq_true h1) (of_decide_eq_true h2)
            have hne : ¬ x = z := ne_of_lt hxz
            simp [hne, hxz]

theorem strLt_asymm (a b : List Char) (h : strLt a b = true) : strLt b a = false := by
  induction a generalizing b with
  | nil =>
    cases b with
    | nil => simp [strLt] at h
    | cons y ys => rfl
  | cons x xs ih =>
    cases b with
    | nil => simp [strLt] at h
    | cons y ys =>
      simp only [strLt] at h ⊢
      by_cases hxy : x = y
      · subst hxy
        simp only [if_pos rfl] at h ⊢
        exact ih ys h
      · have hyx : ¬ y = x := fun hc => hxy hc.symm
        simp only [if_neg hxy] at h
        have hlt : x < y := of_decide_eq_true h
        simp [hyx, decide_eq_false (not_lt_of_gt hlt)]

theorem strLt_conn (a b : List Char) (h1 : strLt a b = false)
    (h2 : strLt b a = false) : a = b := by
  induction a generalizing b with
  | nil =>
    cases b with
    | nil => rfl
    | cons y ys => simp [strLt] at h1
  | cons x xs ih =>
    cases b with
    | nil => simp [strLt] at h2
    | cons y ys =>
      simp only [strLt] at h1 h2
      by_cases hxy : x = y
      · subst hxy
        simp only [if_pos rfl] at h1 h2
        rw [ih ys h1 h2]
      · have hyx : ¬ y = x := fun hc => hxy hc.symm
        simp only [if_neg hxy] at h1
        simp only [if_neg hyx] at h2
        have hnlt1 : ¬ x < y := of_decide_eq_false h1
        have hnlt2 : ¬ y < x := of_decide_eq_false h2
        exact absurd (le_antisymm (not_lt.mp hnlt2) (not_lt.mp hnlt1)) hxy

/-- Non-strict comparison composes: if neither `a` exceeds `b` nor `b`
exceeds `c` in the strict order, then `a` does not exceed `c`. -/
theorem strLt_false_trans (a b c : List Char) (h1 : strLt b a = false)
    (h2 : strLt c b = false) : strLt c a = false := by
  cases hca : strLt c a with
  | false => rfl
  | true =>
    exfalso
    cases hbc : strLt b c with
    | true =>
      have hba := strLt_trans b c a hbc hca
      rw [hba] at h1
      exact Bool.noConfusion h1
    | false =>
      have hbceq : b = c := strLt_conn b c hbc h2
      rw [hbceq, hca] at h1
      exact Bool.noConfusion h1

theorem mem_insertByName (p q : List Char × List Char)
    (l : List (List Char × List Char)) :
    q ∈ insertByName p l ↔ q = p ∨ q ∈ l := by
  induction l with
  | nil => simp [insertByName]
  | cons r rs ih =>
    simp only [insertByName]
    by_cases hr : strLt r.1 p.1
    · rw [if_pos hr]
      simp only [List.mem_cons, ih]
      tauto
    · rw [if_neg hr]
      simp only [List.mem_cons]

theorem perm_insertByName (p : List Char × List Char)
    (l : List (List Char × List Char)) :
    (insertByName p l).Perm (p :: l) := by
  induction l with
  | nil => simp [insertByName]
  | cons r rs ih =>
    simp only [insertByName]
    by_cases hr : strLt r.1 p.1
    · rw [if_pos hr]
      exact (ih.cons r).trans (List.Perm.swap p r rs)
    · rw [if_neg hr]

theorem sortByName_perm (l : List (List Char × List Char)) :
    (sortByName l).Perm l := by
  induction l with
  | nil => exact List.Perm.refl []
  | cons p ps ih =>
    exact (perm_insertByName p (sortByName ps)).trans (ih.cons p)

theorem pairwise_insertByName (p : List Char × List Char)
    (l : List (List Char × List Char))
    (h : l.Pairwise (fun x y => strLt y.1 x.1 = false)) :
    (insertByName p l).Pairwise (fun x y => strLt y.1 x.1 = false) := by
  induction l with
  | nil => simp [insertByName]
  | cons r rs ih =>
    rcases List.pairwise_cons.mp h with ⟨hr, hrs⟩
    simp only [insertByName]
    by_cases hlt : strLt r.1 p.1
    · rw [if_pos hlt]
      refine List.pairwise_cons.mpr ⟨?_, ih hrs⟩
      intro q hq
      rcases (mem_insertByName p q rs).mp hq with hq | hq
      · subst hq
        exact strLt_asymm r.1 q.1 hlt
      · exact hr q hq
    · rw [if_neg hlt]
      refine List.pairwise_cons.mpr ⟨?_, h⟩
      intro q hq
      rcases List.mem_cons.mp hq with hq | hq
      · subst hq
        exact Bool.eq_false_iff.mpr hlt
      · exact strLt_false_trans p.1 r.1 q.1 (Bool.eq_false_iff.mpr hlt) (hr q hq)

theorem sortByName_pairwise (l : List (List Char × List Char)) :
    (sortByName l).Pairwise (fun x y => strLt y.1 x.1 = false) := by
  induction l with
  | nil => exact List.Pairwise.nil
  | cons p ps ih => exact pairwise_insertByName p (sortByName ps) ih

theorem filter_insertByName (p : List Char × List Char)
    (l : List (List Char × List Char)) (nm : List Char) :
    (insertByName p l).filter (fun q => decide (q.1 = nm)) =
      if p.1 = nm then p :: l.filter (fun q => decide (q.1 = nm))
      else l.filter (fun q => decide (q.1 = nm)) := by
  induction l with
  | nil =>
    by_cases hp : p.1 = nm <;> simp [insertByName, List.filter, hp]
  | cons r rs ih =>
    simp only [insertByName]
    by_cases hlt : strLt r.1 p.1
    · rw [if_pos hlt]
      by_cases hp : p.1 = nm
      · have hrnm : ¬ r.1 = nm := by
          intro hc
          rw [hc, ← hp] at hlt
          rw [strLt_irrefl p.1] at hlt
          exact Bool.noConfusion hlt
        simp only [List.filter_cons, decide_eq_true_eq, hrnm, if_false, ih, hp, if_true,
          decide_eq_false hrnm]
      · simp only [List.filter_cons, ih, hp, if_false, decide_eq_false_iff_not]
    · rw [if_neg hlt]
      by_cases hp : p.1 = nm <;>
        simp [List.filter_cons, hp]

theorem sortByName_filter (l : List (List Char × List Char)) (nm : List Char) :
    (sortByName l).filter (fun q => decide (q.1 = nm)) =
      l.filter (fun q => decide (q.1 = nm)) := by
  induction l with
  | nil => rfl
  | cons p ps ih =>
    simp only [sortByName, filter_insertByName, List.filter_cons]
    by_cases hp : p.1 = nm
    · simp [hp, ih]
    · simp [hp, ih]

theorem sorted_perm_nodup_eq :
    ∀ (l1 l2 : List (List Char × List Char)),
      l1.Pairwise (fun x y => strLt y.1 x.1 = false) →
      l2.Pairwise (fun x y => strLt y.1 x.1 = false) →
      l1.Perm l2 → (l1.map Prod.fst).Nodup → l1 = l2 := by
  intro l1
  induction l1 with
  | nil =>
    intro l2 _ _ hp _
    exact (hp.nil_eq).symm ▸ rfl
  | cons a t1 ih =>
    intro l2 h1 h2 hp hnd
    cases l2 with
    | nil => exact absurd hp.symm.nil_eq (by simp)
    | cons b t2 =>
      rcases List.pairwise_cons.mp h1 with ⟨ha, ht1⟩
      rcases List.pairwise_cons.mp h2 with ⟨hb, ht2⟩
      simp only [List.map_cons, List.nodup_cons] at hnd
      have hab : a = b := by
        by_contra hne
        have hain : a ∈ b :: t2 := hp.subset (List.mem_cons_self a t1)
        have hbin : b ∈ a :: t1 := hp.symm.subset (List.mem_cons_self b t2)
        have hat2 : a ∈ t2 := by
          rcases List.mem_cons.mp hain with h | h
          · exact absurd h hne
          · exact h
        have hbt1 : b ∈ t1 := by
          rcases List.mem_cons.mp hbin with h | h
          · exact absurd h.symm hne
          · exact h
        have e1 : strLt a.1 b.1 = false := hb a hat2
        have e2 : strLt b.1 a.1 = false := ha b hbt1
        have : a.1 = b.1 := strLt_conn a.1 b.1 e1 e2
        exact hnd.1 (this ▸ List.mem_map.mpr ⟨b, hbt1, rfl⟩)
      subst hab
      have hperm : t1.Perm t2 := (List.perm_cons a).mp hp
      rw [ih t2 ht1 ht2 hperm hnd.2]

/-! ## Claim C6: the key-normalization algorithm -/

/-- C6, corrected.  The claim describes `_normalize_url` as reassembling
the result from scheme, host, path and query only, dropping any fragment;
but the source calls `urlunsplit(split_url._replace(query=...))`, which
keeps the fragment of the split URL, so a URL with a fragment does NOT
normalize to the same RequestKey as the identical URL without it.  Amended
statement: the function is a pure function that splits the URL, parses the
query string, drops every parameter named `api_key`, sorts the remaining
parameters by name with a stable ascending sort (proved: the sorted list
is pairwise ordered by name, is a permutation of the parsed parameters,
and preserves the relative order of parameters with equal names),
re-encodes the query, and reassembles the URL from scheme, netloc, path,
the new query AND the original fragment. -/
theorem claim_C6_amended (url : String) :
    RequestsCache.normalize_url url =
      ⟨pyUrlunsplit
        { pyUrlsplit url.data with
          query := urlencode (sortByName
            ((parseQsl (pyUrlsplit url.data).query).filter
              (fun p => p.1 ≠ apiKeyChars))) }⟩ ∧
    (sortByName ((parseQsl (pyUrlsplit url.data).query).filter
        (fun p => p.1 ≠ apiKeyChars))).Pairwise
      (fun x y => strLt y.1 x.1 = false) ∧
    (sortByName ((parseQsl (pyUrlsplit url.data).query).filter
        (fun p => p.1 ≠ apiKeyChars))).Perm
      ((parseQsl (pyUrlsplit url.data).query).filter
        (fun p => p.1 ≠ apiKeyChars)) ∧
    (∀ nm, (sortByName ((parseQsl (pyUrlsplit url.data).query).filter
        (fun p => p.1 ≠ apiKeyChars))).filter (fun q => decide (q.1 = nm)) =
      ((parseQsl (pyUrlsplit url.data).query).filter
        (fun p => p.1 ≠ apiKeyChars)).filter (fun q => decide (q.1 = nm))) ∧
    (∀ p, p ∈ sortByName ((parseQsl (pyUrlsplit url.data).query).filter
        (fun p => p.1 ≠ apiKeyChars)) → p.1 ≠ apiKeyChars) := by
  refine ⟨rfl, sortByName_pairwise _, sortByName_perm _, fun nm => sortByName_filter _ nm, ?_⟩
  intro p hp
  have hmem := (sortByName_perm _).subset hp
  have := List.of_mem_filter hmem
  simpa using this

/-- C6, counterexample to the claim as stated: the fragment is kept by
`_normalize_url`, so the URL with the fragment normalizes to a different
RequestKey than the identical URL without it, while the claim says the
two coincide. -/
theorem claim_C6_counterexample :
    RequestsCache.normalize_url "https://a.com/x?a=1#frag" =
      "https://a.com/x?a=1#frag" ∧
    RequestsCache.normalize_url "https://a.com/x?a=1" = "https://a.com/x?a=1" ∧
    "https://a.com/x?a=1#frag" ≠ "https://a.com/x?a=1" := by
  exact ⟨rfl, rfl, by decide⟩

/-! ## Lemmas for claim C5 -/

theorem normalize_eq_of_perm (u1 u2 : List Char)
    (hs : (pyUrlsplit u1).scheme = (pyUrlsplit u2).scheme)
    (hn : (pyUrlsplit u1).netloc = (pyUrlsplit u2).netloc)
    (hp : (pyUrlsplit u1).path = (pyUrlsplit u2).path)
    (hf : (pyUrlsplit u1).fragment = (pyUrlsplit u2).fragment)
    (hperm : ((parseQsl (pyUrlsplit u1).query).filter
        (fun p => p.1 ≠ apiKeyChars)).Perm
      ((parseQsl (pyUrlsplit u2).query).filter (fun p => p.1 ≠ apiKeyChars)))
    (hnd : (((parseQsl (pyUrlsplit u1).query).filter
        (fun p => p.1 ≠ apiKeyChars)).map Prod.fst).Nodup) :
    normalizeUrlCore u1 = normalizeUrlCore u2 := by
  have hsorted : sortByName ((parseQsl (pyUrlsplit u1).query).filter
      (fun p => p.1 ≠ apiKeyChars)) =
      sortByName ((parseQsl (pyUrlsplit u2).query).filter
        (fun p => p.1 ≠ apiKeyChars)) := by
    apply sorted_perm_nodup_eq
    · exact sortByName_pairwise _
    · exact sortByName_pairwise _
    · exact (sortByName_perm _).trans (hperm.trans (sortByName_perm _).symm)
    · exact ((sortByName_perm _).map Prod.fst).nodup_iff.mpr hnd
  unfold normalizeUrlCore
  dsimp only
  rw [hsorted, hs, hn, hp, hf]

theorem pySplitChar_ne_nil (sep : Char) (l : List Char) : pySplitChar sep l ≠ [] := by
  induction l with
  | nil => simp [pySplitChar]
  | cons c cs ih =>
    simp only [pySplitChar]
    cases h : pySplitChar sep cs with
    | nil => exact absurd h ih
    | cons r rs => by_cases hc : c == sep <;> simp [hc]

theorem pySplitChar_append_sep (sep : Char) (xs l : List Char)
    (h : ∀ c ∈ xs, ¬ c = sep) :
    pySplitChar sep (xs ++ sep :: l) = xs :: pySplitChar sep l := by
  induction xs with
  | nil =>
    simp only [List.nil_append, pySplitChar]
    cases hsplit : pySplitChar sep l with
    | nil => exact absurd hsplit (pySplitChar_ne_nil sep l)
    | cons r rs => simp
  | cons x xs ih =>
    have hx : ¬ x = sep := h x (List.mem_cons_self x xs)
    have ih2 := ih (fun c hc => h c (List.mem_cons_of_mem x hc))
    simp only [List.cons_append, pySplitChar, List.append_eq]
    rw [ih2]
    simp [hx]

theorem urlsplit_concat (K : List Char)
    (hK : ∀ c ∈ K, c ≠ '&' ∧ c ≠ '#' ∧ c ≠ '\t' ∧ c ≠ '\r' ∧ c ≠ '\n') :
    pyUrlsplit ("https://a.com/x?b=2&api_key=".data ++ (K ++ "&a=1".data)) =
      ⟨"https".data, "a.com".data, "/x".data,
       "b=2&api_key=".data ++ (K ++ "&a=1".data), []⟩ := by
  have hKtab : ∀ c ∈ K, (!(c == '\t' || c == '\r' || c == '\n')) = true := by
    intro c hc
    rcases hK c hc with ⟨_, _, h3, h4, h5⟩
    simp [h3, h4, h5]
  have hKhash : ∀ c ∈ K, ¬ ((c == '#') = true) := by
    intro c hc
    rcases hK c hc with ⟨_, h2, _, _, _⟩
    simp [h2]
  have hstrip : pyLstripC0 ("https://a.com/x?b=2&api_key=".data ++ (K ++ "&a=1".data)) =
      "https://a.com/x?b=2&api_key=".data ++ (K ++ "&a=1".data) := by
    show List.dropWhile isC0OrSpace
      ('h' :: ("ttps://a.com/x?b=2&api_key=".data ++ (K ++ "&a=1".data))) = _
    rw [List.dropWhile_cons, if_neg (by decide : ¬ (isC0OrSpace 'h' = true))]
    rfl
  have hclean : removeUnsafeBytes
      ("https://a.com/x?b=2&api_key=".data ++ (K ++ "&a=1".data)) =
      "https://a.com/x?b=2&api_key=".data ++ (K ++ "&a=1".data) := by
    unfold removeUnsafeBytes
    rw [List.filter_append, List.filter_append]
    rw [show List.filter (fun c => !(c == '\t' || c == '\r' || c == '\n'))
      "https://a.com/x?b=2&api_key=".data = "https://a.com/x?b=2&api_key=".data from rfl]
    rw [List.filter_eq_self.mpr hKtab]
    rw [show List.filter (fun c => !(c == '\t' || c == '\r' || c == '\n'))
      "&a=1".data = "&a=1".data from rfl]
  have hfind : List.findIdx? (fun c => c == ':')
      ("https://a.com/x?b=2&api_key=".data ++ (K ++ "&a=1".data)) = some 5 := by
    rw [List.findIdx?_append]
    rw [show List.findIdx? (fun c => c == ':')
      "https://a.com/x?b=2&api_key=".data = some 5 from rfl]
    rfl
  have htake5 : ("https://a.com/x?b=2&api_key=".data ++ (K ++ "&a=1".data)).take 5 =
      "https".data := by
    rw [List.take_append_of_le_length (by decide)]
    rfl
  have hhead : ("https://a.com/x?b=2&api_key=".data ++
      (K ++ "&a=1".data)).headD ' ' = 'h' := rfl
  have hdrop6 : ("https://a.com/x?b=2&api_key=".data ++ (K ++ "&a=1".data)).drop 6 =
      "//a.com/x?b=2&api_key=".data ++ (K ++ "&a=1".data) := by
    rw [List.drop_append_of_le_length (by decide)]
    rfl
  have htake2 : ("//a.com/x?b=2&api_key=".data ++ (K ++ "&a=1".data)).take 2 =
      ['/', '/'] := by
    rw [List.take_append_of_le_length (by decide)]
    rfl
  have hdrop2 : ("//a.com/x?b=2&api_key=".data ++ (K ++ "&a=1".data)).drop 2 =
      "a.com/x?b=2&api_key=".data ++ (K ++ "&a=1".data) := by
    rw [List.drop_append_of_le_length (by decide)]
    rfl
  have hnl : splitnetloc ("//a.com/x?b=2&api_key=".data ++ (K ++ "&a=1".data)) =
      ("a.com".data, "/x?b=2&api_key=".data ++ (K ++ "&a=1".data)) := by
    unfold splitnetloc
    dsimp only
    rw [hdrop2]
    rw [List.findIdx?_append]
    rw [show List.findIdx? (fun c => c == '/' || c == '?' || c == '#')
      "a.com/x?b=2&api_key=".data = some 5 from rfl]
    show (("a.com/x?b=2&api_key=".data ++ (K ++ "&a=1".data)).take 5,
      ("a.com/x?b=2&api_key=".data ++ (K ++ "&a=1".data)).drop 5) = _
    rw [List.take_append_of_le_length (by decide),
      List.drop_append_of_le_length (by decide)]
    rfl
  have hnohash : ("/x?b=2&api_key=".data ++ (K ++ "&a=1".data)).any
      (fun c => c == '#') = false := by
    rw [List.any_append, List.any_append]
    rw [show "/x?b=2&api_key=".data.any (fun c => c == '#') = false from rfl]
    rw [show "&a=1".data.any (fun c => c == '#') = false from rfl]
    rw [List.any_eq_false.mpr hKhash]
    rfl
  have hq : ("/x?b=2&api_key=".data ++ (K ++ "&a=1".data)).any
      (fun c => c == '?') = true := by
    rw [List.any_append]
    rw [show "/x?b=2&api_key=".data.any (fun c => c == '?') = true from rfl]
    rfl
  have hsplitq : pySplitOnce '?' ("/x?b=2&api_key=".data ++ (K ++ "&a=1".data)) =
      ["/x".data, "b=2&api_key=".data ++ (K ++ "&a=1".data)] := by
    unfold pySplitOnce
    rw [List.findIdx?_append]
    rw [show List.findIdx? (fun c => c == '?') "/x?b=2&api_key=".data =
      some 2 from rfl]
    show (["/x?b=2&api_key=".data ++ (K ++ "&a=1".data)].headD []).take 2 ::
      [("/x?b=2&api_key=".data ++ (K ++ "&a=1".data)).drop 3] = _
    rw [show (["/x?b=2&api_key=".data ++ (K ++ "&a=1".data)].headD []) =
      "/x?b=2&api_key=".data ++ (K ++ "&a=1".data) from rfl]
    rw [List.take_append_of_le_length (by decide),
      List.drop_append_of_le_length (by decide)]
    rfl
  unfold pyUrlsplit
  rw [hstrip, hclean]
  dsimp only
  rw [hfind]
  dsimp only
  rw [htake5, hhead]
  rw [if_pos (by decide : 0 < 5 ∧ Char.isAlpha 'h' ∧
    List.all "https".data isSchemeChar = true)]
  rw [show ("https".data).map Char.toLower = "https".data from rfl]
  rw [hdrop6]
  dsimp only
  rw [htake2, if_pos rfl, hnl]
  dsimp only
  rw [hnohash]
  rw [if_neg (by simp : ¬ (false = true))]
  dsimp only
  rw [hq, if_pos rfl, hsplitq]

theorem parse_filter_concat (K : List Char)
    (hK : ∀ c ∈ K, c ≠ '&' ∧ c ≠ '#' ∧ c ≠ '\t' ∧ c ≠ '\r' ∧ c ≠ '\n') :
    (parseQsl ("b=2&api_key=".data ++ (K ++ "&a=1".data))).filter
      (fun p => p.1 ≠ apiKeyChars) =
      [("b".data, "2".data), ("a".data, "1".data)] := by
  have hq : "b=2&api_key=".data ++ (K ++ "&a=1".data) =
      "b=2".data ++ '&' :: (("api_key=".data ++ K) ++ '&' :: "a=1".data) := by
    rw [show "b=2&api_key=".data = "b=2".data ++ '&' :: "api_key=".data from rfl]
    rw [show ("&a=1".data : List Char) = '&' :: "a=1".data from rfl]
    simp [List.append_assoc]
  have hpre : ∀ c ∈ "api_key=".data, ¬ c = '&' := by decide
  have hnoamp2 : ∀ c ∈ "api_key=".data ++ K, ¬ c = '&' := by
    intro c hc
    rcases List.mem_append.mp hc with hc | hc
    · exact hpre c hc
    · exact (hK c hc).1
  have hsp : pySplitOnce '=' ("api_key=".data ++ K) = ["api_key".data, K] := by
    unfold pySplitOnce
    rw [List.findIdx?_append]
    rw [show List.findIdx? (fun c => c == '=') "api_key=".data = some 7 from rfl]
    show [("api_key=".data ++ K).take 7, ("api_key=".data ++ K).drop 8] = _
    rw [List.take_append_of_le_length (by decide),
      List.drop_append_of_le_length (by decide)]
    rfl
  have hne : ¬ ("api_key=".data ++ K = []) := by
    show ¬ ('a' :: ("pi_key=".data ++ K) = [])
    simp
  rw [hq]
  unfold parseQsl
  rw [pySplitChar_append_sep '&' _ _ (by decide)]
  rw [pySplitChar_append_sep '&' _ _ hnoamp2]
  rw [show pySplitChar '&' "a=1".data = [['a', '=', '1']] from rfl]
  simp only [List.filterMap_cons]
  rw [show (if ("b=2".data : List Char) = [] then none
    else match pySplitOnce '=' "b=2".data with
    | [name, value] => if value = [] then none
      else some (unquotePlus name, unquotePlus value)
    | _ => none) = some ("b".data, "2".data) from rfl]
  rw [if_neg hne, hsp]
  dsimp only
  by_cases hKnil : K = []
  · rw [if_pos hKnil]
    rfl
  · rw [if_neg hKnil]
    rw [show unquotePlus "api_key".data = apiKeyChars from rfl]
    rw [show (if (['a', '=', '1'] : List Char) = [] then none
      else match pySplitOnce '=' ['a', '=', '1'] with
      | [name, value] => if value = [] then none
        else some (unquotePlus name, unquotePlus value)
      | _ => none) = some ("a".data, "1".data) from rfl]
    rw [List.filter_cons, List.filter_cons, List.filter_cons]
    rw [show (decide (("b".data, "2".data).1 ≠ apiKeyChars)) = true from rfl]
    rw [show (decide ((apiKeyChars, unquotePlus K).1 ≠ apiKeyChars)) = false from by simp]
    rw [show (decide (("a".data, "1".data).1 ≠ apiKeyChars)) = true from rfl]
    rfl

theorem normalize_apiKey_concat (K : List Char)
    (hK : ∀ c ∈ K, c ≠ '&' ∧ c ≠ '#' ∧ c ≠ '\t' ∧ c ≠ '\r' ∧ c ≠ '\n') :
    normalizeUrlCore ("https://a.com/x?b=2&api_key=".data ++ (K ++ "&a=1".data)) =
      normalizeUrlCore "https://a.com/x?a=1&b=2".data := by
  unfold normalizeUrlCore
  dsimp only
  rw [urlsplit_concat K hK]
  dsimp only
  rw [parse_filter_concat K hK]
  rfl

/-! ## Claim C5: credential and order invariance of normalization -/

/-- C5, corrected.  The claim asserts invariance under any reordering of
the query parameters, but the sort is stable and keys only on the
parameter NAME, so two URLs that differ only in the order of two
parameters with the SAME name normalize to different keys (see the
counterexample); likewise, "for every credential value K" only holds for
values that do not contain the separator characters that change how the
URL string parses.  Amended statement: (1) for every credential value K
containing no `&`, `#`, tab, CR or LF,
`normalize("https://a.com/x?b=2&api_key=" ++ K ++ "&a=1")` equals
`normalize("https://a.com/x?a=1&b=2")` — in particular the api_key
parameter is dropped whether present or not; (2) two URLs whose split
components agree except for the query, and whose parsed queries (after
dropping `api_key`) are permutations of each other with pairwise distinct
parameter names, normalize to the same RequestKey. -/
theorem claim_C5_amended :
    (∀ K : String,
      (∀ c ∈ K.data, c ≠ '&' ∧ c ≠ '#' ∧ c ≠ '\t' ∧ c ≠ '\r' ∧ c ≠ '\n') →
      RequestsCache.normalize_url ("https://a.com/x?b=2&api_key=" ++ K ++ "&a=1") =
        RequestsCache.normalize_url "https://a.com/x?a=1&b=2") ∧
    (∀ u1 u2 : String,
      (pyUrlsplit u1.data).scheme = (pyUrlsplit u2.data).scheme →
      (pyUrlsplit u1.data).netloc = (pyUrlsplit u2.data).netloc →
      (pyUrlsplit u1.data).path = (pyUrlsplit u2.data).path →
      (pyUrlsplit u1.data).fragment = (pyUrlsplit u2.data).fragment →
      ((parseQsl (pyUrlsplit u1.data).query).filter
        (fun p => p.1 ≠ apiKeyChars)).Perm
        ((parseQsl (pyUrlsplit u2.data).query).filter
          (fun p => p.1 ≠ apiKeyChars)) →
      (((parseQsl (pyUrlsplit u1.data).query).filter
        (fun p => p.1 ≠ apiKeyChars)).map Prod.fst).Nodup →
      RequestsCache.normalize_url u1 = RequestsCache.normalize_url u2) := by
  constructor
  · intro K hKd
    have hdata : ("https://a.com/x?b=2&api_key=" ++ K ++ "&a=1").data =
        "https://a.com/x?b=2&api_key=".data ++ (K.data ++ "&a=1".data) := by
      simp [String.data_append, List.append_assoc]
    show String.mk (normalizeUrlCore ("https://a.com/x?b=2&api_key=" ++ K ++ "&a=1").data) =
      String.mk (normalizeUrlCore "https://a.com/x?a=1&b=2".data)
    rw [hdata]
    exact congrArg String.mk (normalize_apiKey_concat K.data hKd)
  · intro u1 u2 hs hn hp hf hperm hnd
    exact congrArg String.mk (normalize_eq_of_perm u1.data u2.data hs hn hp hf hperm hnd)

/-- C5, counterexample to the claim as stated: the two URLs differ only in
the order of their query parameters (the parameter multiset is the same),
yet they normalize to different RequestKeys, because the stable sort keys
only on the parameter name and both parameters are named `a`. -/
theorem claim_C5_counterexample :
    RequestsCache.normalize_url "https://a.com/x?a=1&a=2" = "https://a.com/x?a=1&a=2" ∧
    RequestsCache.normalize_url "https://a.com/x?a=2&a=1" = "https://a.com/x?a=2&a=1" ∧
    "https://a.com/x?a=1&a=2" ≠ "https://a.com/x?a=2&a=1" := by
  exact ⟨rfl, rfl, by decide⟩

/-- Witness for C5 at concrete inputs: the credential value `KEY123`
satisfies the separator-free hypothesis and the claimed equation holds;
and for part (2), two URLs differing only in the order of the
distinct-name parameters `a` and `b` normalize identically. -/
theorem claim_C5_witness :
    (∀ c ∈ ("KEY123" : String).data,
      c ≠ '&' ∧ c ≠ '#' ∧ c ≠ '\t' ∧ c ≠ '\r' ∧ c ≠ '\n') ∧
    RequestsCache.normalize_url "https://a.com/x?b=2&api_key=KEY123&a=1" =
      RequestsCache.normalize_url "https://a.com/x?a=1&b=2" ∧
    RequestsCache.normalize_url "https://a.com/x?b=2&a=1" =
      RequestsCache.normalize_url "https://a.com/x?a=1&b=2" := by
  refine ⟨by decide, ?_, ?_⟩
  · have h := claim_C5_amended.1 "KEY123" (by decide)
    rw [show ("https://a.com/x?b=2&api_key=" ++ "KEY123" ++ "&a=1" : String) =
      "https://a.com/x?b=2&api_key=KEY123&a=1" from rfl] at h
    exact h
  · exact claim_C5_amended.2 "https://a.com/x?b=2&a=1" "https://a.com/x?a=1&b=2"
      rfl rfl rfl rfl (by decide) (by decide)

end SimilarwebExtract
